import Mathlib

/-!
Plant waterer: the sensing-and-irrigation driver.

A shallow embedding of `main/driver.c`, `main/driver.h` and of the attribute handler of
`main/esp_zb_waterer.c`.

* C `int` values are `Int`; the `uint16_t` consumption counter is a `Nat` reduced modulo `2 ^ 16`.
* C `float` values are the rationals that binary32 can hold: every arithmetic operation of the
  source is the exact rational operation followed by `f32`, round to nearest, ties to even
  (`f64` for the one `double` multiplication).  Infinities and NaN are not represented; no
  operation of the driver produces them from finite inputs.
* Calls into the SDK (GPIO, ADC, calibration, Zigbee attribute table, FreeRTOS delays) appear as
  events in a trace; what they return is supplied by an `Env` or by the inputs of a cycle.
* `ESP_ERROR_CHECK` failures, a call through a null callback and undefined conversions end the
  run: the functions return `none`.
* The Zigbee task runs beside `measure_task`; its calls into the driver are placed between the
  decisions of `measure_task`, each before the first decision it can influence.
-/

namespace Waterer

/-! ## Binary floating point -/

/-- Bit weights for the binary search of `log2n`: the powers of two `b`, largest first, with
`2 ^ b ≤ n`. -/
def log2_weights (n : Nat) : Nat → Nat → List Nat → List Nat
  | 0, _, ws => ws
  | fuel + 1, b, ws => if n < 2 ^ b then ws else log2_weights n fuel (2 * b) (b :: ws)

/-- Binary search for the largest `l` with `2 ^ l ≤ n`, adding the weights that fit. -/
def log2_search (n : Nat) : List Nat → Nat → Nat
  | [], l => l
  | b :: bs, l => if 2 ^ (l + b) ≤ n then log2_search n bs (l + b) else log2_search n bs l

/-- Position of the leading bit of a positive natural number. -/
def log2n (n : Nat) : Nat := log2_search n (log2_weights n n 1 []) 0

/-- The integer `e` with `2 ^ e ≤ p / d < 2 ^ (e + 1)`, for positive `p` and `d`. -/
def ilog2 (p d : Nat) : Int :=
  let lp := log2n p
  let ld := log2n d
  if ld ≤ lp then
    (if 2 ^ (lp - ld) * d ≤ p then ((lp - ld : Nat) : Int) else ((lp - ld : Nat) : Int) - 1)
  else
    (if d ≤ 2 ^ (ld - lp) * p then -((ld - lp : Nat) : Int) else -((ld - lp : Nat) : Int) - 1)

/-- The quotient `N / D` rounded to the nearest natural number, ties to the even one. -/
def round_quot (N D : Nat) : Nat :=
  if 2 * (N % D) < D then N / D
  else if D < 2 * (N % D) then N / D + 1
  else if (N / D) % 2 = 0 then N / D
  else N / D + 1

/-- The quotient `p / d` of positive numbers rounded to `prec` significant bits, exponents
below `emin` sharing the unit in the last place of `emin` (subnormals): with `2 ^ k` the unit
in the last place, the result is `p / d / 2 ^ k` rounded to a natural number, times `2 ^ k`. -/
def round_mag (prec : Nat) (emin : Int) (p d : Nat) : ℚ :=
  let k : Int := max (ilog2 p d) emin - ((prec : Int) - 1)
  let m := round_quot (p * 2 ^ (-k).toNat) (d * 2 ^ k.toNat)
  if 0 ≤ k then ((m * 2 ^ k.toNat : Nat) : ℚ) else mkRat m (2 ^ (-k).toNat)

/-- Round a rational to the nearest binary floating-point number with `prec` significand bits
and least normal exponent `emin`, ties to the even significand (IEEE 754 roundTiesToEven,
subnormals included, no overflow to infinity). -/
def roundNE (prec : Nat) (emin : Int) (q : ℚ) : ℚ :=
  if q.num = 0 then 0
  else if q.num < 0 then -round_mag prec emin q.num.natAbs q.den
  else round_mag prec emin q.num.natAbs q.den

/-- Rounding to C `float` (binary32). -/
def f32 (q : ℚ) : ℚ := roundNE 24 (-126) q

/-- Rounding to C `double` (binary64). -/
def f64 (q : ℚ) : ℚ := roundNE 53 (-1022) q

/-- Conversion `int` to `float`. -/
def int_to_float (n : Int) : ℚ := f32 (n : ℚ)

/-- Conversion `float` to `int`: the fraction is discarded (truncation toward zero); the
behaviour is undefined when the result does not fit a 32-bit `int`. -/
def float_to_int (x : ℚ) : Option Int :=
  let t : Int := if 0 ≤ x then ⌊x⌋ else ⌈x⌉
  if -2147483648 ≤ t ∧ t ≤ 2147483647 then some t else none

/-! ## Constants of `driver.h` -/

/-- Output pin of the relay, `GPIO_NUM_4`. -/
def RELAY_PIN : Nat := 4

def RELAY_ON_TIME_S : Int := 5

def RELAY_MIN_TIME_BETWEEN_CYCLES_M : Int := 5

/-- Output pin of the sensor rail, `GPIO_NUM_0`. -/
def SENSOR_POWER_PIN : Nat := 0

def SENSOR_POWER_UP_TIME_MS : Int := 100

def SENSOR_COUNT : Nat := 2

def DRY_VOLTAGE : Int := 2100

def WET_VOLTAGE : Int := 850

/-- The literal `40.0f`. -/
def DEFAULT_MIN_HUMIDITY : ℚ := 40

def ESP_OK : Int := 0

def ESP_FAIL : Int := -1


/-! ## The environment of the driver -/

/-- What the SDK answers to the calls of the driver.  The channel numbers behind
`ADC1_GPIO1_CHANNEL`, `ADC1_GPIO2_CHANNEL`, `ADC1_GPIO3_CHANNEL` come from the SDK header
`soc/adc_channel.h` and are a parameter. -/
structure Env where
  /-- The array `sensor_pins` of `driver.c`, by index. -/
  sensor_pins : Nat → Int
  /-- Status returned by `gpio_set_level` for a pin. -/
  gpio_status : Nat → Int
  /-- Status returned by `adc_cali_create_scheme_curve_fitting` for a channel. -/
  cali_create : Int → Int
  /-- Status returned by `adc_oneshot_new_unit`. -/
  adc_new_unit : Int
  /-- Status returned by `adc_oneshot_config_channel` for a channel. -/
  adc_config_channel : Int → Int
  /-- Value returned by `xTaskCreate` (`pdPASS` is 1). -/
  task_create : Int

/-- One channel's answers during a sampling cycle: `adc_oneshot_read` and, when calibration is
enabled, `adc_cali_raw_to_voltage`. -/
structure Sample where
  read_status : Int
  adc_raw : Int
  cali_status : Int
  voltage : Int

/-- Calls that leave the driver, in the order they are made. -/
inductive Event where
  /-- A call `gpio_set_level(pin, level)`. -/
  | gpio_write (pin level : Nat)
  /-- A call `vTaskDelay(pdMS_TO_TICKS(ms))`. -/
  | delay_ms (ms : Int)
  /-- A call `report_ptr(value, channel)`. -/
  | report (value : ℚ) (channel : Nat)
  /-- A call `consumption_ptr(cycles)`. -/
  | consumption (cycles : Nat)
  /-- A call `esp_zb_zcl_set_attribute_val(endpoint, cluster, role, attr, &value, false)`. -/
  | zb_set (endpoint cluster attr : Nat) (value : Int)
  deriving DecidableEq

/-- The file-scope variables of `driver.c`.  A callback pointer is recorded as registered
(`true`) or null (`false`); a calibration handle as the channel it was created for. -/
structure Driver where
  calibration_enabled : Bool
  calibration_handles : List (Option Int)
  target_min_humidity : Int
  minutes_since_last_pump : ℚ
  water_consumption_cycles : Nat
  report_ptr : Bool
  consumption_ptr : Bool
  interval : Int
  driver_initialized : Bool
  deriving DecidableEq

/-- The driver variables together with the GPIO output levels and the Zigbee attribute table
(endpoint, cluster, attribute). -/
structure World where
  drv : Driver
  level : Nat → Nat
  attr : Nat → Nat → Nat → Int

/-- The initialisers of `driver.c`: `target_min_humidity` is an `int` initialised from
`DEFAULT_MIN_HUMIDITY`, the other variables without initialiser are zero. -/
def boot_driver : Driver :=
  { calibration_enabled := true
    calibration_handles := [none, none, none]
    target_min_humidity := (float_to_int DEFAULT_MIN_HUMIDITY).getD 0
    minutes_since_last_pump := 0
    water_consumption_cycles := 0
    report_ptr := false
    consumption_ptr := false
    interval := 0
    driver_initialized := false }

/-- State at reset. -/
def boot : World := { drv := boot_driver, level := fun _ => 0, attr := fun _ _ _ => 0 }

/-- The SDK call `gpio_set_level`: when it returns `ESP_OK` the pin drives the written level. -/
def gpio_set_level (env : Env) (pin level : Nat) (lv : Nat → Nat) : Int × (Nat → Nat) :=
  if env.gpio_status pin = ESP_OK then (ESP_OK, Function.update lv pin level)
  else (env.gpio_status pin, lv)

/-! ## `driver.c` -/

/-- Drive the relay (`driver.c` 23-29): one write of the inverted level, whose status is
returned; an error status is only logged. -/
def set_relay_state (env : Env) (on_ : Bool) (lv : Nat → Nat) : Int × (Nat → Nat) × List Event :=
  let r := gpio_set_level env RELAY_PIN (if on_ then 0 else 1) lv
  (r.1, r.2, [Event.gpio_write RELAY_PIN (if on_ then 0 else 1)])


/-- Moisture percentage of a reading, `-1.0f` outside the calibrated span (`driver.c` 31-35).
The quotient is a `float` division by the `int` `WET_VOLTAGE - DRY_VOLTAGE` converted to
`float`; the product with the `double` literal `100.0` is a `double`, converted back to
`float` by the return. -/
def calculate_humidity (value : Int) : ℚ :=
  if value > DRY_VOLTAGE then -1
  else if value < WET_VOLTAGE then -1
  else f32 (f64 (f32 (int_to_float (value - DRY_VOLTAGE) /
    int_to_float (WET_VOLTAGE - DRY_VOLTAGE)) * 100))


/-- Calibration of one channel (`driver.c` 37-65): whether the scheme was created, and the
handle written to `*out_handle`. -/
def adc_calibration_init (env : Env) (channel : Int) : Bool × Option Int :=
  let ret := env.cali_create channel
  (decide (ret = ESP_OK), if ret = ESP_OK then some channel else none)

/-- Body of the channel loop of `measure_task` (`driver.c` 80-97) for channel `i`: the new
`min_measured_humidity` and the report made, or `none` when an `ESP_ERROR_CHECK` aborts. -/
def read_channel (calibration_enabled report_ptr : Bool) (smp : Sample) (i : Nat)
    (min_measured_humidity : ℚ) : Option (ℚ × List Event) :=
  if smp.read_status ≠ ESP_OK then none
  else if calibration_enabled = true ∧ smp.cali_status ≠ ESP_OK then none
  else
    let value : Int := if calibration_enabled then smp.voltage else smp.adc_raw
    let reports := if report_ptr then [Event.report (calculate_humidity value) i] else []
    let m :=
      if value > 0 ∧ int_to_float value < min_measured_humidity then int_to_float value
      else min_measured_humidity
    some (m, reports)

/-- The channel loop of `measure_task` (`driver.c` 79-98): `n` channels remain, `i` is next. -/
def sample_loop (calibration_enabled report_ptr : Bool) (samples : Nat → Sample) :
    Nat → Nat → ℚ → Option (ℚ × List Event)
  | 0, _, m => some (m, [])
  | n + 1, i, m =>
    match read_channel calibration_enabled report_ptr (samples i) i m with
    | none => none
    | some (m1, ev1) =>
      match sample_loop calibration_enabled report_ptr samples n (i + 1) m1 with
      | none => none
      | some (m2, ev2) => some (m2, ev1 ++ ev2)

/-- The update `minutes_since_last_pump += interval / 60.0f` (`driver.c` 115). -/
def advance (minutes : ℚ) (interval : Int) : ℚ :=
  f32 (minutes + f32 (int_to_float interval / 60))

/-- The condition of `driver.c` 102; both `int` operands are converted to `float`. -/
def pump_condition (min_measured_humidity : ℚ) (target_min_humidity : Int) (minutes : ℚ) : Bool :=
  decide (min_measured_humidity < int_to_float target_min_humidity ∧
    minutes > int_to_float RELAY_MIN_TIME_BETWEEN_CYCLES_M)

/-- What one iteration of the loop of `measure_task` did. -/
structure Outcome where
  /-- The driver variables as the iteration found them. -/
  before : Driver
  /-- Whether the branch of `driver.c` 102-111 was taken. -/
  activated : Bool
  /-- The calls made, in order. -/
  events : List Event
  /-- The state at the end of the iteration. -/
  world : World

/-- One iteration of the loop of `measure_task` (`driver.c` 70-116).  The call through a null
`consumption_ptr` ends the run. -/
def measure_cycle (env : Env) (samples : Nat → Sample) (w : World) : Option Outcome :=
  let d := w.drv
  let lv1 := (gpio_set_level env SENSOR_POWER_PIN 1 w.level).2
  let ev1 := [Event.gpio_write SENSOR_POWER_PIN 1, Event.delay_ms SENSOR_POWER_UP_TIME_MS]
  match sample_loop d.calibration_enabled d.report_ptr samples SENSOR_COUNT 0 100 with
  | none => none
  | some (min_measured_humidity, ev2) =>
    let lv2 := (gpio_set_level env SENSOR_POWER_PIN 0 lv1).2
    let ev3 := [Event.gpio_write SENSOR_POWER_PIN 0]
    if pump_condition min_measured_humidity d.target_min_humidity d.minutes_since_last_pump then
      let r1 := set_relay_state env true lv2
      let r2 := set_relay_state env false r1.2.1
      let cycles := (d.water_consumption_cycles + 1) % 65536
      if d.consumption_ptr = false then none
      else
        some
          { before := d
            activated := true
            events := ev1 ++ ev2 ++ ev3 ++ r1.2.2 ++ [Event.delay_ms (RELAY_ON_TIME_S * 1000)] ++
              r2.2.2 ++ [Event.consumption cycles, Event.delay_ms (d.interval * 1000)]
            world :=
              { w with
                drv :=
                  { d with
                    water_consumption_cycles := cycles
                    minutes_since_last_pump := advance 0 d.interval }
                level := r2.2.1 } }
    else
      some
        { before := d
          activated := false
          events := ev1 ++ ev2 ++ ev3 ++ [Event.delay_ms (d.interval * 1000)]
          world :=
            { w with
              drv := { d with minutes_since_last_pump := advance d.minutes_since_last_pump d.interval }
              level := lv2 } }

/-- The calibration loop of `init_driver` (`driver.c` 160-162): every pass calibrates
`sensor_pins[0]` and stores the handle in slot `i`. -/
def calibrate_all (env : Env) : Nat → Nat → Bool × List (Option Int) → Bool × List (Option Int)
  | 0, _, st => st
  | n + 1, i, (enabled, handles) =>
    let r := adc_calibration_init env (env.sensor_pins 0)
    calibrate_all env n (i + 1) (enabled && r.1, handles.set i r.2)

/-- The channel configuration loop of `init_driver` (`driver.c` 166-168): `false` when an
`ESP_ERROR_CHECK` aborts. -/
def config_channels (env : Env) : Nat → Nat → Bool
  | 0, _ => true
  | n + 1, i =>
    if env.adc_config_channel (env.sensor_pins i) = ESP_OK then config_channels env n (i + 1)
    else false

/-- The function `init_driver` (`driver.c` 137-171): the status returned and the new driver
variables, or `none` when an `ESP_ERROR_CHECK` aborts. -/
def init_driver (env : Env) (interval_s : Int) (cb water_cb : Bool) (d : Driver) :
    Option (Int × Driver) :=
  let d1 := { d with report_ptr := cb, consumption_ptr := water_cb, interval := interval_s }
  if d1.driver_initialized then some (ESP_OK, d1)
  else if env.adc_new_unit ≠ ESP_OK then none
  else
    let c := calibrate_all env SENSOR_COUNT 0 (d1.calibration_enabled, d1.calibration_handles)
    if config_channels env SENSOR_COUNT 0 = false then none
    else
      some (if env.task_create = 1 then ESP_OK else ESP_FAIL,
        { d1 with
          driver_initialized := true
          calibration_enabled := c.1
          calibration_handles := c.2 })

/-- The function `set_min_humidity` (`driver.c` 173-175): the `float` argument is stored in the
`int` variable `target_min_humidity`. -/
def set_min_humidity (value : ℚ) (d : Driver) : Option Driver :=
  match float_to_int value with
  | none => none
  | some t => some { d with target_min_humidity := t }

/-! ## `esp_zb_waterer.c` -/

def HA_ONOFF_SWITCH_ENDPOINT : Nat := 1

def HA_CONSUMPTION_SENSOR_ENDPOINT : Nat := 40

def HA_TARGET_HUMIDITY_ENDPOINT : Nat := 50

def MEASUREMENT_INTERVAL_S : Int := 5

/-- ZCL cluster and attribute identifiers, from the Zigbee SDK headers. -/
def ESP_ZB_ZCL_CLUSTER_ID_ON_OFF : Nat := 0x0006

def ESP_ZB_ZCL_CLUSTER_ID_ANALOG_OUTPUT : Nat := 0x000d

def ESP_ZB_ZCL_CLUSTER_ID_TEMP_MEASUREMENT : Nat := 0x0402

def ESP_ZB_ZCL_ATTR_ON_OFF_ON_OFF_ID : Nat := 0x0000

def ESP_ZB_ZCL_ATTR_ANALOG_OUTPUT_PRESENT_VALUE_ID : Nat := 0x0055

def ESP_ZB_ZCL_ATTR_TEMP_MEASUREMENT_VALUE_ID : Nat := 0x0000

def ESP_ZB_ZCL_ATTR_TYPE_BOOL : Nat := 0x10

def ESP_ZB_ZCL_STATUS_SUCCESS : Int := 0

def ESP_ERR_INVALID_ARG : Int := 0x102

/-- The bytes behind `message->attribute.data.value`, as the two casts of the handler read
them. -/
structure Value where
  as_bool : Bool
  as_float : ℚ

/-- The fields of `esp_zb_zcl_set_attr_value_message_t` that the handler reads; `data_value` is
`none` for a null pointer. -/
structure Message where
  status : Int
  dst_endpoint : Nat
  cluster : Nat
  attr_id : Nat
  data_type : Nat
  data_value : Option Value

/-- The function `esp_app_water_consumption_handler` (`esp_zb_waterer.c` 22-29): the `uint16_t`
argument is written to the measured-value attribute of the consumption endpoint. -/
def esp_app_water_consumption_handler (value : Nat) (w : World) : World × List Event :=
  let v : Int := ((value % 65536 : Nat) : Int)
  ({ w with
      attr := fun e c a =>
        if e = HA_CONSUMPTION_SENSOR_ENDPOINT ∧ c = ESP_ZB_ZCL_CLUSTER_ID_TEMP_MEASUREMENT ∧
            a = ESP_ZB_ZCL_ATTR_TEMP_MEASUREMENT_VALUE_ID then v
        else w.attr e c a },
    [Event.zb_set HA_CONSUMPTION_SENSOR_ENDPOINT ESP_ZB_ZCL_CLUSTER_ID_TEMP_MEASUREMENT
      ESP_ZB_ZCL_ATTR_TEMP_MEASUREMENT_VALUE_ID v])

/-- The function `zb_attribute_handler` (`esp_zb_waterer.c` 94-122): the status returned, the
new state and the calls made, or `none` when the handler reads through a null
`data.value` or converts a value that no `int` holds. -/
def zb_attribute_handler (env : Env) (message : Option Message) (w : World) :
    Option (Int × World × List Event) :=
  match message with
  | none => some (ESP_FAIL, w, [])
  | some msg =>
    if msg.status ≠ ESP_ZB_ZCL_STATUS_SUCCESS then some (ESP_ERR_INVALID_ARG, w, [])
    else
      let humidity : Option World :=
        if msg.dst_endpoint = HA_TARGET_HUMIDITY_ENDPOINT ∧
            msg.cluster = ESP_ZB_ZCL_CLUSTER_ID_ANALOG_OUTPUT ∧
            msg.attr_id = ESP_ZB_ZCL_ATTR_ANALOG_OUTPUT_PRESENT_VALUE_ID then
          match msg.data_value with
          | none => none
          | some v =>
            match set_min_humidity v.as_float w.drv with
            | none => none
            | some d => some { w with drv := d }
        else some w
      match humidity with
      | none => none
      | some w1 =>
        if msg.dst_endpoint = HA_ONOFF_SWITCH_ENDPOINT ∧
            msg.cluster = ESP_ZB_ZCL_CLUSTER_ID_ON_OFF ∧
            msg.attr_id = ESP_ZB_ZCL_ATTR_ON_OFF_ON_OFF_ID ∧
            msg.data_type = ESP_ZB_ZCL_ATTR_TYPE_BOOL then
          let light_state : Bool :=
            match msg.data_value with
            | some v => v.as_bool
            | none => false
          let r := set_relay_state env light_state w1.level
          let h := esp_app_water_consumption_handler 10 { w1 with level := r.2.1 }
          some (ESP_OK, h.1, r.2.2 ++ h.2)
        else some (ESP_OK, w1, [])

/-! ## Runs -/

/-- A call from the Zigbee task into the driver. -/
inductive Call where
  | set_min_humidity (value : ℚ)
  | attribute (message : Option Message)

/-- Effect of a call on the state. -/
def apply_call (env : Env) (c : Call) (w : World) : Option World :=
  match c with
  | Call.set_min_humidity value =>
    match set_min_humidity value w.drv with
    | none => none
    | some d => some { w with drv := d }
  | Call.attribute message =>
    match zb_attribute_handler env message w with
    | none => none
    | some r => some r.2.1

/-- Effect of a sequence of calls. -/
def apply_calls (env : Env) : List Call → World → Option World
  | [], w => some w
  | c :: cs, w =>
    match apply_call env c w with
    | none => none
    | some w1 => apply_calls env cs w1

/-- Inputs of one iteration of `measure_task`: the calls that arrive before the iteration
reaches its decision, and the answers of the ADC. -/
structure CycleInput where
  calls : List Call
  samples : Nat → Sample

/-- The iterations of `measure_task` over a sequence of inputs: the outcome of every
iteration, or `none` when the run is aborted. -/
def run (env : Env) : List CycleInput → World → Option (List Outcome)
  | [], _ => some []
  | c :: cs, w =>
    match apply_calls env c.calls w with
    | none => none
    | some w1 =>
      match measure_cycle env c.samples w1 with
      | none => none
      | some o =>
        match run env cs o.world with
        | none => none
        | some os => some (o :: os)

/-- The arguments of the calls to `consumption_ptr` in a trace. -/
def consumption_calls : List Event → List Nat
  | [] => []
  | Event.consumption n :: es => n :: consumption_calls es
  | _ :: es => consumption_calls es

/-- The levels written to the relay pin in a trace. -/
def relay_writes : List Event → List Nat
  | [] => []
  | Event.gpio_write pin level :: es =>
    if pin = RELAY_PIN then level :: relay_writes es else relay_writes es
  | _ :: es => relay_writes es

/-- Number of iterations that activated the pump. -/
def activations : List Outcome → Nat
  | [] => 0
  | o :: os => (if o.activated then 1 else 0) + activations os

/-! ## Concrete scenarios -/

/-- An SDK in which every call succeeds, with the ADC channel numbers of the ESP32-C6
(`ADC1_GPIO1_CHANNEL` is channel 1). -/
def env_ok : Env :=
  { sensor_pins := fun i => (i : Int) + 1
    gpio_status := fun _ => ESP_OK
    cali_create := fun _ => ESP_OK
    adc_new_unit := ESP_OK
    adc_config_channel := fun _ => ESP_OK
    task_create := 1 }

/-- The status `ESP_ERR_NOT_SUPPORTED`. -/
def ESP_ERR_NOT_SUPPORTED : Int := 0x106

/-- As `env_ok`, but curve fitting is only available for channel 1, the first sensor. -/
def env_first_channel_only : Env :=
  { env_ok with cali_create := fun c => if c = 1 then ESP_OK else ESP_ERR_NOT_SUPPORTED }

/-- Every channel answers the same raw count and the same calibrated voltage. -/
def uniform (adc_raw voltage : Int) : Nat → Sample :=
  fun _ => { read_status := ESP_OK, adc_raw := adc_raw, cali_status := ESP_OK, voltage := voltage }

/-- The state after reset and `init_driver(interval_s, cb, water_cb)` with both callbacks
registered, on `env_ok`. -/
def started (interval_s : Int) : World :=
  match init_driver env_ok interval_s true true boot_driver with
  | some r => { boot with drv := r.2 }
  | none => boot

/-- A started driver whose timer has reached `minutes` and whose threshold is `target`. -/
def running (target : Int) (minutes : ℚ) (interval_s : Int) : World :=
  { started interval_s with
    drv :=
      { (started interval_s).drv with
        target_min_humidity := target
        minutes_since_last_pump := minutes } }

/-- A cycle without calls from the Zigbee task, every channel reading `voltage` millivolts. -/
def steady (voltage : Int) : CycleInput := { calls := [], samples := uniform voltage voltage }

/-- An attribute write of the boolean `b` to the on/off attribute of the switch endpoint;
`x` is what the same bytes read as a `float`. -/
def on_off_write (b : Bool) (x : ℚ) : Message :=
  { status := ESP_ZB_ZCL_STATUS_SUCCESS
    dst_endpoint := HA_ONOFF_SWITCH_ENDPOINT
    cluster := ESP_ZB_ZCL_CLUSTER_ID_ON_OFF
    attr_id := ESP_ZB_ZCL_ATTR_ON_OFF_ON_OFF_ID
    data_type := ESP_ZB_ZCL_ATTR_TYPE_BOOL
    data_value := some { as_bool := b, as_float := x } }

/-- What a run shows of an iteration: whether the pump was activated and the timer found. -/
def summary (o : Outcome) : Bool × ℚ := (o.activated, o.before.minutes_since_last_pump)

/-- The timer after `n` further iterations without activation, starting from `minutes`. -/
def advance_n (interval : Int) : Nat → ℚ → ℚ
  | 0, minutes => minutes
  | n + 1, minutes => advance_n interval n (advance minutes interval)

/-- Whether the timer stays at or below `bound` from `minutes` on, through `n` further
iterations without activation. -/
def stays_below (interval : Int) (bound : ℚ) : Nat → ℚ → Bool
  | 0, minutes => decide (minutes ≤ bound)
  | n + 1, minutes =>
    decide (minutes ≤ bound) && stays_below interval bound n (advance minutes interval)

/-- An iteration that did nothing, the default where an outcome is looked up by index. -/
def idle (w : World) : Outcome := { before := w.drv, activated := false, events := [], world := w }

/-- A list of weights that halve down to 1, `span` being twice the first (1 when empty). -/
def halving : List Nat → Nat → Prop
  | [], span => span = 1
  | b :: bs, span => span = 2 * b ∧ halving bs b

/-- The arguments of the calls to `report_ptr` in a trace. -/
def report_calls : List Event → List (ℚ × Nat)
  | [] => []
  | Event.report value channel :: es => (value, channel) :: report_calls es
  | _ :: es => report_calls es

/-- The reading `value` of a channel (`driver.c` 84-90): the calibrated voltage when
calibration is enabled, the raw count otherwise. -/
def channel_value (calibration_enabled : Bool) (smp : Sample) : Int :=
  if calibration_enabled then smp.voltage else smp.adc_raw

/-- The first channel answers `v0`, every other channel `v1`, raw and calibrated alike. -/
def two_channels (v0 v1 : Int) : Nat → Sample :=
  fun i =>
    { read_status := ESP_OK
      adc_raw := if i = 0 then v0 else v1
      cali_status := ESP_OK
      voltage := if i = 0 then v0 else v1 }

/-- The consumption value reported on the consumption endpoint: the measured-value attribute
that `esp_app_water_consumption_handler` writes. -/
def reported_consumption (w : World) : Int :=
  w.attr HA_CONSUMPTION_SENSOR_ENDPOINT ESP_ZB_ZCL_CLUSTER_ID_TEMP_MEASUREMENT
    ESP_ZB_ZCL_ATTR_TEMP_MEASUREMENT_VALUE_ID

/-- The reset state with the consumption value `c` reported before. -/
def reporting (c : Int) : World :=
  { boot with
    attr := fun e cl a =>
      if e = HA_CONSUMPTION_SENSOR_ENDPOINT ∧ cl = ESP_ZB_ZCL_CLUSTER_ID_TEMP_MEASUREMENT ∧
          a = ESP_ZB_ZCL_ATTR_TEMP_MEASUREMENT_VALUE_ID then c
      else boot.attr e cl a }

/-! ## Theorems -/

/-! ### Rounding -/

theorem halving_pos (ws : List Nat) : ∀ span, halving ws span → 1 ≤ span := by
  induction ws with
  | nil =>
    intro span hs
    simp only [halving] at hs
    omega
  | cons b bs ih =>
    intro span hs
    have := ih b hs.2
    have := hs.1
    omega

theorem log2_search_spec (n : Nat) (ws : List Nat) :
    ∀ (l span : Nat), halving ws span → 2 ^ l ≤ n → n < 2 ^ (l + span) →
      2 ^ log2_search n ws l ≤ n ∧ n < 2 ^ (log2_search n ws l + 1) := by
  induction ws with
  | nil =>
    intro l span hs hlo hhi
    simp only [halving] at hs
    subst hs
    exact ⟨hlo, hhi⟩
  | cons b bs ih =>
    intro l span hs hlo hhi
    obtain ⟨hspan, hbs⟩ := hs
    subst hspan
    simp only [log2_search]
    split
    · rename_i h
      exact ih (l + b) b hbs h (by rw [show l + b + b = l + 2 * b by omega]; exact hhi)
    · rename_i h
      exact ih l b hbs hlo (not_le.mp h)

theorem log2_weights_spec (n : Nat) (fuel : Nat) :
    ∀ (b : Nat) (ws : List Nat), halving ws b → n + 1 ≤ b + fuel →
      ∃ span, halving (log2_weights n fuel b ws) span ∧ n < 2 ^ span := by
  induction fuel with
  | zero =>
    intro b ws hs hfuel
    refine ⟨b, hs, ?_⟩
    calc n < 2 ^ n := Nat.lt_two_pow n
      _ ≤ 2 ^ b := Nat.pow_le_pow_right (by norm_num) (by omega)
  | succ fuel ih =>
    intro b ws hs hfuel
    simp only [log2_weights]
    split
    · rename_i h
      exact ⟨b, hs, h⟩
    · have hb : 1 ≤ b := halving_pos ws b hs
      exact ih (2 * b) (b :: ws) ⟨rfl, hs⟩ (by omega)

theorem log2n_spec (n : Nat) (hn : 1 ≤ n) : 2 ^ log2n n ≤ n ∧ n < 2 ^ (log2n n + 1) := by
  obtain ⟨span, hs, hlt⟩ := log2_weights_spec n n 1 [] rfl (by omega)
  exact log2_search_spec n _ 0 span hs (by simpa using hn) (by simpa using hlt)



theorem ilog2_lower (p d : Nat) (hp : 1 ≤ p) (hd : 1 ≤ d) :
    (2 : ℚ) ^ (ilog2 p d) * (d : ℚ) ≤ (p : ℚ) := by
  obtain ⟨hp1, hp2⟩ := log2n_spec p hp
  obtain ⟨hd1, hd2⟩ := log2n_spec d hd
  unfold ilog2
  simp only
  split
  · rename_i hle
    split
    · rename_i h
      rw [zpow_natCast]
      exact_mod_cast h
    · have h1 : 2 ^ (log2n p - log2n d) * d ≤ 2 * p := by
        calc 2 ^ (log2n p - log2n d) * d
            ≤ 2 ^ (log2n p - log2n d) * 2 ^ (log2n d + 1) := Nat.mul_le_mul_left _ (le_of_lt hd2)
          _ = 2 * 2 ^ log2n p := by
              rw [← pow_add, show log2n p - log2n d + (log2n d + 1) = log2n p + 1 by omega,
                pow_succ, mul_comm]
          _ ≤ 2 * p := Nat.mul_le_mul_left _ hp1
      have h2 : ((2 : ℚ) ^ (log2n p - log2n d)) * (d : ℚ) ≤ 2 * (p : ℚ) := by exact_mod_cast h1
      rw [zpow_sub_one₀ (by norm_num : (2 : ℚ) ≠ 0), zpow_natCast]
      rw [mul_assoc, mul_comm (2 : ℚ)⁻¹, ← mul_assoc]
      rw [← div_eq_mul_inv, div_le_iff₀ (by norm_num : (0 : ℚ) < 2)]
      linarith
  · rename_i hlt
    split
    · rename_i h
      have h2 : (d : ℚ) ≤ (2 : ℚ) ^ (log2n d - log2n p) * (p : ℚ) := by exact_mod_cast h
      rw [zpow_neg, zpow_natCast, inv_mul_le_iff₀ (by positivity)]
      exact h2
    · have h1 : d ≤ 2 ^ (log2n d - log2n p + 1) * p := by
        calc d ≤ 2 ^ (log2n d + 1) := le_of_lt hd2
          _ = 2 ^ (log2n d - log2n p + 1) * 2 ^ log2n p := by
              rw [← pow_add]
              congr 1
              omega
          _ ≤ 2 ^ (log2n d - log2n p + 1) * p := Nat.mul_le_mul_left _ hp1
      have h2 : (d : ℚ) ≤ (2 : ℚ) ^ (log2n d - log2n p + 1) * (p : ℚ) := by exact_mod_cast h1
      have he : -((log2n d - log2n p : Nat) : Int) - 1 = -(((log2n d - log2n p + 1 : Nat)) : Int) := by
        push_cast
        ring
      rw [he, zpow_neg, zpow_natCast, inv_mul_le_iff₀ (by positivity)]
      exact h2

theorem round_quot_le (N D M : Nat) (hD : 0 < D) (h : N ≤ M * D) : round_quot N D ≤ M := by
  have hf : N / D ≤ M := Nat.div_le_of_le_mul (by rw [mul_comm]; exact h)
  have hdecomp := Nat.div_add_mod N D
  have hup : 0 < N % D → N / D + 1 ≤ M := by
    intro hr
    by_contra hcon
    have hfM : N / D = M := by omega
    rw [hfM] at hdecomp
    have : D * M = M * D := mul_comm _ _
    omega
  unfold round_quot
  split
  · exact hf
  · split
    · exact hup (by omega)
    · split
      · exact hf
      · exact hup (by omega)

theorem round_quot_error (N D : Nat) (hD : 0 < D) :
    |((round_quot N D : Nat) : ℚ) - (N : ℚ) / (D : ℚ)| ≤ 1 / 2 := by
  have hDq : (0 : ℚ) < (D : ℚ) := by exact_mod_cast hD
  have hdecomp : (N : ℚ) = (D : ℚ) * ((N / D : Nat) : ℚ) + ((N % D : Nat) : ℚ) := by
    exact_mod_cast (Nat.div_add_mod N D).symm
  have hquot : (N : ℚ) / (D : ℚ) = ((N / D : Nat) : ℚ) + ((N % D : Nat) : ℚ) / (D : ℚ) := by
    rw [hdecomp]
    field_simp
    ring
  have hlow : 2 * (N % D) < D → ((N % D : Nat) : ℚ) / (D : ℚ) < 1 / 2 := by
    intro h
    have hq : 2 * ((N % D : Nat) : ℚ) < (D : ℚ) := by exact_mod_cast h
    rw [div_lt_iff₀ hDq]
    linarith
  have hhigh : D < 2 * (N % D) → 1 / 2 < ((N % D : Nat) : ℚ) / (D : ℚ) := by
    intro h
    have hq : (D : ℚ) < 2 * ((N % D : Nat) : ℚ) := by exact_mod_cast h
    rw [lt_div_iff₀ hDq]
    linarith
  have htie : ¬ 2 * (N % D) < D → ¬ D < 2 * (N % D) →
      ((N % D : Nat) : ℚ) / (D : ℚ) = 1 / 2 := by
    intro h1 h2
    have hq : 2 * ((N % D : Nat) : ℚ) = (D : ℚ) := by exact_mod_cast (by omega : 2 * (N % D) = D)
    rw [div_eq_iff (ne_of_gt hDq)]
    linarith
  have hr0 : (0 : ℚ) ≤ ((N % D : Nat) : ℚ) / (D : ℚ) := by positivity
  have hr1 : ((N % D : Nat) : ℚ) / (D : ℚ) < 1 := by
    rw [div_lt_one hDq]
    exact_mod_cast Nat.mod_lt N hD
  rw [hquot, abs_le]
  unfold round_quot
  split
  · rename_i h
    have := hlow h
    constructor <;> linarith
  · split
    · rename_i h1 h
      have := hhigh h
      push_cast
      constructor <;> linarith
    · rename_i h1 h2
      have := htie h1 h2
      split
      · constructor <;> linarith
      · push_cast
        constructor <;> linarith

/-- The exponent of the unit in the last place chosen by `round_mag`. -/
theorem round_mag_eq (prec : Nat) (emin : Int) (p d : Nat) (hd : 1 ≤ d) :
    ∃ k : Int, k = max (ilog2 p d) emin - ((prec : Int) - 1) ∧
      round_mag prec emin p d =
        ((round_quot (p * 2 ^ (-k).toNat) (d * 2 ^ k.toNat) : Nat) : ℚ) * (2 : ℚ) ^ k ∧
      (p : ℚ) / (d : ℚ) =
        ((p * 2 ^ (-k).toNat : Nat) : ℚ) / ((d * 2 ^ k.toNat : Nat) : ℚ) * (2 : ℚ) ^ k := by
  refine ⟨max (ilog2 p d) emin - ((prec : Int) - 1), rfl, ?_, ?_⟩
  · unfold round_mag
    simp only
    generalize max (ilog2 p d) emin - ((prec : Int) - 1) = k
    split
    · rename_i hk
      obtain ⟨j, rfl⟩ := Int.eq_ofNat_of_zero_le hk
      simp only [Int.toNat_ofNat, zpow_natCast]
      push_cast
      ring
    · rename_i hk
      obtain ⟨j, hj⟩ : ∃ j : Nat, k = -(j : Int) := ⟨(-k).toNat, by omega⟩
      subst hj
      simp only [neg_neg, Int.toNat_ofNat, zpow_neg, zpow_natCast]
      rw [Rat.mkRat_eq_div]
      push_cast
      rw [div_eq_mul_inv]
  · generalize max (ilog2 p d) emin - ((prec : Int) - 1) = k
    have hdq : (d : ℚ) ≠ 0 := by
      have : (0 : ℚ) < (d : ℚ) := by exact_mod_cast hd
      exact ne_of_gt this
    rcases le_or_lt 0 k with hk | hk
    · obtain ⟨j, rfl⟩ := Int.eq_ofNat_of_zero_le hk
      have hneg : (-(j : Int)).toNat = 0 := by omega
      simp only [Int.toNat_ofNat, zpow_natCast, hneg]
      push_cast
      field_simp
      ring
    · obtain ⟨j, hj⟩ : ∃ j : Nat, k = -(j : Int) := ⟨(-k).toNat, by omega⟩
      subst hj
      have hpos : (-(j : Int)).toNat = 0 := by omega
      simp only [neg_neg, Int.toNat_ofNat, zpow_neg, zpow_natCast, hpos]
      push_cast
      field_simp
      ring

theorem round_mag_nonneg (prec : Nat) (emin : Int) (p d : Nat) (hd : 1 ≤ d) :
    0 ≤ round_mag prec emin p d := by
  obtain ⟨k, _, h, _⟩ := round_mag_eq prec emin p d hd
  rw [h]
  positivity

/-- The exponent found is at most that of any power of two above the quotient. -/
theorem ilog2_lt (p d : Nat) (hp : 1 ≤ p) (hd : 1 ≤ d) (E : Int)
    (h : (p : ℚ) / (d : ℚ) < (2 : ℚ) ^ E) : ilog2 p d < E := by
  have hdq : (0 : ℚ) < (d : ℚ) := by exact_mod_cast hd
  have h1 := ilog2_lower p d hp hd
  have h2 : (2 : ℚ) ^ (ilog2 p d) ≤ (p : ℚ) / (d : ℚ) := by
    rw [le_div_iff₀ hdq]
    exact h1
  have h3 : (2 : ℚ) ^ (ilog2 p d) < (2 : ℚ) ^ E := lt_of_le_of_lt h2 h
  exact (zpow_lt_zpow_iff_right₀ (by norm_num : (1 : ℚ) < 2)).mp h3

/-- Rounding is off by at most half a unit in the last place. -/
theorem round_mag_error (prec : Nat) (emin : Int) (p d : Nat) (hp : 1 ≤ p) (hd : 1 ≤ d)
    (E : Int) (hE : emin ≤ E) (h : (p : ℚ) / (d : ℚ) < (2 : ℚ) ^ (E + 1)) :
    |round_mag prec emin p d - (p : ℚ) / (d : ℚ)| ≤ (2 : ℚ) ^ (E - ((prec : Int) - 1)) / 2 := by
  obtain ⟨k, hk, hm, hq⟩ := round_mag_eq prec emin p d hd
  have he := ilog2_lt p d hp hd (E + 1) h
  have hkE : k ≤ E - ((prec : Int) - 1) := by
    rw [hk]
    have : max (ilog2 p d) emin ≤ E := max_le (by omega) hE
    omega
  have hD : 0 < d * 2 ^ k.toNat := Nat.mul_pos hd (by positivity)
  have herr := round_quot_error (p * 2 ^ (-k).toNat) (d * 2 ^ k.toNat) hD
  have hpow : (0 : ℚ) < (2 : ℚ) ^ k := by positivity
  rw [hm, hq, ← sub_mul, abs_mul, abs_of_pos hpow]
  calc _ ≤ 1 / 2 * (2 : ℚ) ^ k := mul_le_mul_of_nonneg_right herr (le_of_lt hpow)
    _ ≤ 1 / 2 * (2 : ℚ) ^ (E - ((prec : Int) - 1)) := by
        apply mul_le_mul_of_nonneg_left _ (by norm_num)
        exact zpow_le_zpow_right₀ (by norm_num) hkE
    _ = _ := by ring

/-- Rounding does not cross a natural number below `2 ^ prec`. -/
theorem round_mag_le (prec : Nat) (emin : Int) (p d : Nat) (hp : 1 ≤ p) (hd : 1 ≤ d)
    (B : Nat) (hB : B < 2 ^ prec) (hemin : emin ≤ (prec : Int) - 1) (h : p ≤ B * d) :
    round_mag prec emin p d ≤ (B : ℚ) := by
  have hdq : (0 : ℚ) < (d : ℚ) := by exact_mod_cast hd
  have hlt : (p : ℚ) / (d : ℚ) < (2 : ℚ) ^ (prec : Int) := by
    rw [div_lt_iff₀ hdq, zpow_natCast]
    have h1 : (p : ℚ) ≤ (B : ℚ) * (d : ℚ) := by exact_mod_cast h
    have h2 : (B : ℚ) < (2 : ℚ) ^ prec := by exact_mod_cast hB
    nlinarith
  have he := ilog2_lt p d hp hd prec hlt
  obtain ⟨k, hk, hm, -⟩ := round_mag_eq prec emin p d hd
  have hk0 : k ≤ 0 := by
    rw [hk]
    have : max (ilog2 p d) emin ≤ (prec : Int) - 1 := max_le (by omega) hemin
    omega
  obtain ⟨j, hj⟩ : ∃ j : Nat, k = -(j : Int) := ⟨(-k).toNat, by omega⟩
  subst hj
  have hpos : (-(j : Int)).toNat = 0 := by omega
  rw [hm]
  simp only [neg_neg, Int.toNat_ofNat, hpos, pow_zero, mul_one, zpow_neg, zpow_natCast]
  have hle := round_quot_le (p * 2 ^ j) d (B * 2 ^ j) hd
    (by rw [Nat.mul_right_comm]; exact Nat.mul_le_mul_right _ h)
  have hleq : ((round_quot (p * 2 ^ j) d : Nat) : ℚ) ≤ (B : ℚ) * (2 : ℚ) ^ j := by exact_mod_cast hle
  rw [← div_eq_mul_inv, div_le_iff₀ (by positivity)]
  exact hleq

/-- Natural numbers below `2 ^ prec` are not changed by rounding. -/
theorem round_mag_nat (prec : Nat) (emin : Int) (n : Nat) (hn : 1 ≤ n) (hB : n < 2 ^ prec)
    (hemin : emin ≤ (prec : Int) - 1) : round_mag prec emin n 1 = (n : ℚ) := by
  have hlt : (n : ℚ) / ((1 : Nat) : ℚ) < (2 : ℚ) ^ (prec : Int) := by
    rw [Nat.cast_one, div_one, zpow_natCast]
    exact_mod_cast hB
  have he := ilog2_lt n 1 hn le_rfl prec hlt
  obtain ⟨k, hk, hm, -⟩ := round_mag_eq prec emin n 1 le_rfl
  have hk0 : k ≤ 0 := by
    rw [hk]
    have : max (ilog2 n 1) emin ≤ (prec : Int) - 1 := max_le (by omega) hemin
    omega
  obtain ⟨j, hj⟩ : ∃ j : Nat, k = -(j : Int) := ⟨(-k).toNat, by omega⟩
  subst hj
  have hpos : (-(j : Int)).toNat = 0 := by omega
  rw [hm]
  simp only [neg_neg, Int.toNat_ofNat, hpos, pow_zero, mul_one, zpow_neg, zpow_natCast]
  have hq : round_quot (n * 2 ^ j) 1 = n * 2 ^ j := by
    simp [round_quot, Nat.mod_one]
  rw [hq]
  push_cast
  field_simp

/-- The three cases of `roundNE`: zero, positive and negative. -/
theorem roundNE_cases (prec : Nat) (emin : Int) (q : ℚ) :
    (q = 0 ∧ roundNE prec emin q = 0) ∨
    (0 < q ∧ roundNE prec emin q = round_mag prec emin q.num.natAbs q.den ∧
      q = (q.num.natAbs : ℚ) / (q.den : ℚ) ∧ 1 ≤ q.num.natAbs) ∨
    (q < 0 ∧ roundNE prec emin q = -round_mag prec emin q.num.natAbs q.den ∧
      q = -((q.num.natAbs : ℚ) / (q.den : ℚ)) ∧ 1 ≤ q.num.natAbs) := by
  have hq := Rat.num_div_den q
  rcases lt_trichotomy q.num 0 with hneg | hzero | hpos
  · right; right
    have hcast : ((q.num.natAbs : Nat) : ℚ) = -(q.num : ℚ) := by
      have hz : ((q.num.natAbs : Nat) : Int) = -q.num := by omega
      rw [← Int.cast_natCast, hz, Int.cast_neg]
    refine ⟨Rat.num_neg.mp hneg, ?_, ?_, by omega⟩
    · simp [roundNE, hneg, ne_of_lt hneg]
    · rw [hcast, neg_div, neg_neg, hq]
  · left
    have hq0 : q = 0 := Rat.zero_of_num_zero hzero
    exact ⟨hq0, by simp [roundNE, hzero]⟩
  · right; left
    have hcast : ((q.num.natAbs : Nat) : ℚ) = (q.num : ℚ) := by
      have hz : ((q.num.natAbs : Nat) : Int) = q.num := by omega
      rw [← Int.cast_natCast, hz]
    refine ⟨Rat.num_pos.mp hpos, ?_, ?_, by omega⟩
    · simp [roundNE, ne_of_gt hpos, not_lt.mpr (le_of_lt hpos)]
    · rw [hcast, hq]

theorem roundNE_nonneg (prec : Nat) (emin : Int) (q : ℚ) (h : 0 ≤ q) :
    0 ≤ roundNE prec emin q := by
  rcases roundNE_cases prec emin q with ⟨_, hr⟩ | ⟨_, hr, _, _⟩ | ⟨hneg, _, _, _⟩
  · rw [hr]
  · rw [hr]
    exact round_mag_nonneg prec emin _ _ q.den_pos
  · exact absurd h (not_le.mpr hneg)

theorem roundNE_nonpos (prec : Nat) (emin : Int) (q : ℚ) (h : q ≤ 0) :
    roundNE prec emin q ≤ 0 := by
  rcases roundNE_cases prec emin q with ⟨_, hr⟩ | ⟨hpos, _, _, _⟩ | ⟨_, hr, _, _⟩
  · rw [hr]
  · exact absurd h (not_le.mpr hpos)
  · rw [hr]
    have := round_mag_nonneg prec emin q.num.natAbs q.den q.den_pos
    linarith

/-- Rounding keeps a value of magnitude at most `B`, a natural number below `2 ^ prec`,
within that magnitude. -/
theorem roundNE_abs_le (prec : Nat) (emin : Int) (q : ℚ) (B : Nat) (hB : B < 2 ^ prec)
    (hemin : emin ≤ (prec : Int) - 1) (h : |q| ≤ (B : ℚ)) : |roundNE prec emin q| ≤ (B : ℚ) := by
  have hdq : (0 : ℚ) < (q.den : ℚ) := by exact_mod_cast q.den_pos
  have key : ∀ x : ℚ, 0 < x → x = (q.num.natAbs : ℚ) / (q.den : ℚ) → x ≤ (B : ℚ) →
      1 ≤ q.num.natAbs → round_mag prec emin q.num.natAbs q.den ≤ (B : ℚ) := by
    intro x _ hx hxB hp
    apply round_mag_le prec emin _ _ hp q.den_pos B hB hemin
    rw [hx, div_le_iff₀ hdq] at hxB
    exact_mod_cast hxB
  rcases roundNE_cases prec emin q with ⟨_, hr⟩ | ⟨hpos, hr, hq, hp⟩ | ⟨hneg, hr, hq, hp⟩
  · rw [hr, abs_zero]
    positivity
  · rw [hr, abs_of_nonneg (round_mag_nonneg prec emin _ _ q.den_pos)]
    rw [abs_of_pos hpos] at h
    exact key q hpos hq h hp
  · rw [hr, abs_neg, abs_of_nonneg (round_mag_nonneg prec emin _ _ q.den_pos)]
    rw [abs_of_neg hneg] at h
    exact key (-q) (by linarith) (neg_eq_iff_eq_neg.mpr hq) h hp

/-- Rounding a value of magnitude below `2 ^ (E + 1)` moves it by at most half a unit in the
last place of that binade. -/
theorem roundNE_error (prec : Nat) (emin : Int) (q : ℚ) (E : Int) (hE : emin ≤ E)
    (h : |q| < (2 : ℚ) ^ (E + 1)) :
    |roundNE prec emin q - q| ≤ (2 : ℚ) ^ (E - ((prec : Int) - 1)) / 2 := by
  rcases roundNE_cases prec emin q with ⟨hq0, hr⟩ | ⟨hpos, hr, hq, hp⟩ | ⟨hneg, hr, hq, hp⟩
  · rw [hr, hq0, sub_zero, abs_zero]
    positivity
  · rw [abs_of_pos hpos] at h
    have := round_mag_error prec emin _ _ hp q.den_pos E hE (by rw [← hq]; exact h)
    rw [hr]
    rw [← hq] at this
    exact this
  · rw [abs_of_neg hneg] at h
    have hq2 : -q = (q.num.natAbs : ℚ) / (q.den : ℚ) := neg_eq_iff_eq_neg.mpr hq
    have := round_mag_error prec emin _ _ hp q.den_pos E hE (by rw [← hq2]; exact h)
    rw [hr]
    rw [← hq2] at this
    rw [show -round_mag prec emin q.num.natAbs q.den - q =
      -(round_mag prec emin q.num.natAbs q.den - -q) by ring, abs_neg]
    exact this

/-- Integers of magnitude below `2 ^ prec` are not changed by rounding. -/
theorem roundNE_intCast (prec : Nat) (emin : Int) (z : Int) (hz : z.natAbs < 2 ^ prec)
    (hemin : emin ≤ (prec : Int) - 1) : roundNE prec emin (z : ℚ) = (z : ℚ) := by
  have hnum : (z : ℚ).num = z := Rat.num_intCast z
  have hden : (z : ℚ).den = 1 := Rat.den_intCast z
  rcases roundNE_cases prec emin (z : ℚ) with ⟨hq0, hr⟩ | ⟨_, hr, hq, hp⟩ | ⟨_, hr, hq, hp⟩
  · rw [hr, hq0]
  · simp only [hnum, hden] at hr hq hp
    rw [hr, round_mag_nat prec emin _ hp hz hemin]
    rw [hq]
    simp
  · simp only [hnum, hden] at hr hq hp
    rw [hr, round_mag_nat prec emin _ hp hz hemin]
    rw [hq]
    simp


/-! ### The moisture transform -/

theorem calculate_humidity_endpoints :
    calculate_humidity 2100 = 0 ∧ calculate_humidity 850 = 100 ∧ calculate_humidity 1475 = 50 ∧
      int_to_float (WET_VOLTAGE - DRY_VOLTAGE) = -1250 := by
  decide!

/-- In the calibrated span the moisture is a percentage within `2 ^ (-17)` of the exact
quotient. -/
theorem calculate_humidity_in_span (v : Int) (hlo : WET_VOLTAGE ≤ v) (hhi : v ≤ DRY_VOLTAGE) :
    0 ≤ calculate_humidity v ∧ calculate_humidity v ≤ 100 ∧
      |calculate_humidity v -
        (((v - DRY_VOLTAGE : Int) : ℚ) / ((WET_VOLTAGE - DRY_VOLTAGE : Int) : ℚ)) * 100|
        ≤ 1 / 131072 := by
  have h1 : ¬ v > DRY_VOLTAGE := not_lt.mpr hhi
  have h2 : ¬ v < WET_VOLTAGE := not_lt.mpr hlo
  rcases eq_or_lt_of_le hlo with heq | hlt
  · have h850 : calculate_humidity WET_VOLTAGE = 100 := calculate_humidity_endpoints.2.1
    rw [← heq, h850]
    norm_num [WET_VOLTAGE, DRY_VOLTAGE]
  · simp only [WET_VOLTAGE, DRY_VOLTAGE] at hlo hhi hlt
    have hnum : int_to_float (v - DRY_VOLTAGE) = ((v - DRY_VOLTAGE : Int) : ℚ) := by
      apply roundNE_intCast
      · simp only [DRY_VOLTAGE]
        have : (v - 2100).natAbs ≤ 1250 := by omega
        exact lt_of_le_of_lt this (by norm_num)
      · norm_num
    have hx : int_to_float (v - DRY_VOLTAGE) / int_to_float (WET_VOLTAGE - DRY_VOLTAGE) =
        ((v - DRY_VOLTAGE : Int) : ℚ) / ((WET_VOLTAGE - DRY_VOLTAGE : Int) : ℚ) := by
      rw [hnum, calculate_humidity_endpoints.2.2.2]
      norm_num [WET_VOLTAGE, DRY_VOLTAGE]
    simp only [calculate_humidity, h1, h2, if_false, hx]
    generalize hxdef : ((v - DRY_VOLTAGE : Int) : ℚ) / ((WET_VOLTAGE - DRY_VOLTAGE : Int) : ℚ) = x
    have hvq : ((v : Int) : ℚ) ≤ 2100 := by exact_mod_cast hhi
    have hvq2 : (850 : ℚ) < ((v : Int) : ℚ) := by exact_mod_cast hlt
    have hxval : x = (2100 - (v : ℚ)) / 1250 := by
      rw [← hxdef]
      simp only [WET_VOLTAGE, DRY_VOLTAGE]
      push_cast
      rw [div_neg, ← neg_div, neg_sub]
    have hx0 : 0 ≤ x := by
      rw [hxval]
      apply div_nonneg <;> linarith
    have hx1 : x < 1 := by
      rw [hxval, div_lt_one (by norm_num)]
      linarith
    -- the quotient, rounded to binary32
    have ha0 : 0 ≤ f32 x := roundNE_nonneg 24 (-126) x hx0
    have ha1 : |f32 x| ≤ ((1 : Nat) : ℚ) :=
      roundNE_abs_le 24 (-126) x 1 (by norm_num) (by norm_num)
        (by rw [abs_of_nonneg hx0]; exact_mod_cast le_of_lt hx1)
    have hae : |f32 x - x| ≤ (2 : ℚ) ^ ((-1 : Int) - (((24 : Nat) : Int) - 1)) / 2 :=
      roundNE_error 24 (-126) x (-1) (by norm_num) (by rw [abs_of_nonneg hx0]; simpa using hx1)
    rw [abs_of_nonneg ha0] at ha1
    -- the product, rounded to binary64
    have hy0 : 0 ≤ f32 x * 100 := by positivity
    have hy1 : f32 x * 100 ≤ 100 := by
      have : f32 x ≤ 1 := by exact_mod_cast ha1
      linarith
    have hb0 : 0 ≤ f64 (f32 x * 100) := roundNE_nonneg 53 (-1022) _ hy0
    have hb1 : |f64 (f32 x * 100)| ≤ ((100 : Nat) : ℚ) :=
      roundNE_abs_le 53 (-1022) _ 100 (by norm_num) (by norm_num)
        (by rw [abs_of_nonneg hy0]; exact_mod_cast hy1)
    have hbe : |f64 (f32 x * 100) - f32 x * 100| ≤
        (2 : ℚ) ^ ((6 : Int) - (((53 : Nat) : Int) - 1)) / 2 :=
      roundNE_error 53 (-1022) _ 6 (by norm_num)
        (by rw [abs_of_nonneg hy0]; exact lt_of_le_of_lt hy1 (by norm_num))
    rw [abs_of_nonneg hb0] at hb1
    -- the result, rounded to binary32
    have hc0 : 0 ≤ f32 (f64 (f32 x * 100)) := roundNE_nonneg 24 (-126) _ hb0
    have hc1 : |f32 (f64 (f32 x * 100))| ≤ ((100 : Nat) : ℚ) :=
      roundNE_abs_le 24 (-126) _ 100 (by norm_num) (by norm_num)
        (by rw [abs_of_nonneg hb0]; exact hb1)
    have hce : |f32 (f64 (f32 x * 100)) - f64 (f32 x * 100)| ≤
        (2 : ℚ) ^ ((6 : Int) - (((24 : Nat) : Int) - 1)) / 2 :=
      roundNE_error 24 (-126) _ 6 (by norm_num)
        (by rw [abs_of_nonneg hb0]; exact lt_of_le_of_lt hb1 (by norm_num))
    rw [abs_of_nonneg hc0] at hc1
    refine ⟨hc0, by exact_mod_cast hc1, ?_⟩
    have e1 : (2 : ℚ) ^ ((-1 : Int) - (((24 : Nat) : Int) - 1)) / 2 = 1 / 33554432 := by
      norm_num [zpow_neg]
    have e2 : (2 : ℚ) ^ ((6 : Int) - (((53 : Nat) : Int) - 1)) / 2 = 1 / 140737488355328 := by
      norm_num [zpow_neg]
    have e3 : (2 : ℚ) ^ ((6 : Int) - (((24 : Nat) : Int) - 1)) / 2 = 1 / 262144 := by
      norm_num [zpow_neg]
    rw [e1] at hae
    rw [e2] at hbe
    rw [e3] at hce
    rw [abs_le] at hae hbe hce ⊢
    constructor <;> linarith [hae.1, hae.2, hbe.1, hbe.2, hce.1, hce.2]

/-- C3, as stated, fails: at 1662 mV the result is `4592763 / 131072`, the binary32 value
next to 35.04, while `(1662 - DRY) / (WET - DRY) * 100` is `876 / 25`; the two differ. -/
theorem calculate_humidity_inexact :
    calculate_humidity 1662 = 4592763 / 131072 ∧
    (((1662 - DRY_VOLTAGE : Int) : ℚ) / ((WET_VOLTAGE - DRY_VOLTAGE : Int) : ℚ)) * 100 = 876 / 25 ∧
    calculate_humidity 1662 ≠
      (((1662 - DRY_VOLTAGE : Int) : ℚ) / ((WET_VOLTAGE - DRY_VOLTAGE : Int) : ℚ)) * 100 := by
  decide!

/-- C3, amended: a reading gives the sentinel `-1.0f` exactly when it is below `WET_VOLTAGE`
or above `DRY_VOLTAGE`; otherwise the result is the source expression
`(float)(v - DRY) / (WET - DRY) * 100.0` evaluated in binary floating point, lies in
`[0, 100]` and is within `2 ^ (-17)` of the exact quotient; the readings 2100, 850 and 1475
give exactly 0, 100 and 50. -/
theorem calculate_humidity_spec (v : Int) :
    (calculate_humidity v = -1 ↔ (v < WET_VOLTAGE ∨ DRY_VOLTAGE < v)) ∧
    (WET_VOLTAGE ≤ v → v ≤ DRY_VOLTAGE →
      calculate_humidity v =
          f32 (f64 (f32 (int_to_float (v - DRY_VOLTAGE) /
            int_to_float (WET_VOLTAGE - DRY_VOLTAGE)) * 100)) ∧
        0 ≤ calculate_humidity v ∧ calculate_humidity v ≤ 100 ∧
        |calculate_humidity v -
          (((v - DRY_VOLTAGE : Int) : ℚ) / ((WET_VOLTAGE - DRY_VOLTAGE : Int) : ℚ)) * 100|
          ≤ 1 / 131072) ∧
    calculate_humidity 2100 = 0 ∧ calculate_humidity 850 = 100 ∧ calculate_humidity 1475 = 50 := by
  refine ⟨⟨fun h => ?_, fun h => ?_⟩, fun hlo hhi => ⟨?_, calculate_humidity_in_span v hlo hhi⟩,
    by decide!, by decide!, by decide!⟩
  · by_contra hcon
    push_neg at hcon
    have hspan := calculate_humidity_in_span v hcon.1 hcon.2
    rw [h] at hspan
    exact absurd hspan.1 (by norm_num)
  · rcases h with h | h
    · have h1 : ¬ v > DRY_VOLTAGE := by
        simp only [WET_VOLTAGE, DRY_VOLTAGE] at h ⊢
        omega
      simp only [calculate_humidity, h1, h, if_true, if_false]
    · have h1 : v > DRY_VOLTAGE := h
      simp only [calculate_humidity, h1, if_true]
  · have h1 : ¬ v > DRY_VOLTAGE := not_lt.mpr hhi
    have h2 : ¬ v < WET_VOLTAGE := not_lt.mpr hlo
    simp only [calculate_humidity, h1, h2, if_false]

theorem calculate_humidity_spec_witness :
    WET_VOLTAGE ≤ 1662 ∧ (1662 : Int) ≤ DRY_VOLTAGE ∧
      calculate_humidity 1662 =
        f32 (f64 (f32 (int_to_float (1662 - DRY_VOLTAGE) /
          int_to_float (WET_VOLTAGE - DRY_VOLTAGE)) * 100)) ∧
      0 ≤ calculate_humidity 1662 ∧ calculate_humidity 1662 ≤ 100 ∧
      |calculate_humidity 1662 -
        (((1662 - DRY_VOLTAGE : Int) : ℚ) / ((WET_VOLTAGE - DRY_VOLTAGE : Int) : ℚ)) * 100|
        ≤ 1 / 131072 :=
  ⟨by decide, by decide, (calculate_humidity_spec 1662).2.1 (by decide) (by decide)⟩

/-! ### The relay -/

/-- C8: `set_relay_state(on)` makes exactly one call `gpio_set_level(RELAY_PIN, on ? 0 : 1)`,
returns the status of that call whatever it is, leaves the relay at the inverted level when
the call succeeds (and every other pin, or a failed write, as it was), and a second call with
the same argument leaves the levels as the first did. -/
theorem set_relay_state_spec (env : Env) (on_ : Bool) (lv : Nat → Nat) :
    (set_relay_state env on_ lv).2.2 = [Event.gpio_write RELAY_PIN (if on_ then 0 else 1)] ∧
    (set_relay_state env on_ lv).1 = env.gpio_status RELAY_PIN ∧
    (set_relay_state env on_ lv).2.1 RELAY_PIN =
      (if env.gpio_status RELAY_PIN = ESP_OK then (if on_ then 0 else 1) else lv RELAY_PIN) ∧
    (∀ pin, pin ≠ RELAY_PIN → (set_relay_state env on_ lv).2.1 pin = lv pin) ∧
    (set_relay_state env on_ (set_relay_state env on_ lv).2.1).2.1 =
      (set_relay_state env on_ lv).2.1 := by
  unfold set_relay_state gpio_set_level
  by_cases h : env.gpio_status RELAY_PIN = ESP_OK
  · simp [h, Function.update_idem]
    intro pin hpin
    exact Function.update_noteq hpin _ _
  · simp [h]

/-- Driving the relay on from the reset state leaves the sensor rail pin as it was. -/
theorem set_relay_state_spec_witness :
    SENSOR_POWER_PIN ≠ RELAY_PIN ∧
      (set_relay_state env_ok true boot.level).2.1 SENSOR_POWER_PIN = boot.level SENSOR_POWER_PIN :=
  ⟨by decide, (set_relay_state_spec env_ok true boot.level).2.2.2.1 SENSOR_POWER_PIN (by decide)⟩

/-! ### Manual override -/

theorem zb_attribute_handler_on_off (env : Env) (w : World) (b : Bool) (x : ℚ) :
    zb_attribute_handler env (some (on_off_write b x)) w =
      some (ESP_OK,
        (esp_app_water_consumption_handler 10
          { w with level := (set_relay_state env b w.level).2.1 }).1,
        (set_relay_state env b w.level).2.2 ++
          (esp_app_water_consumption_handler 10
            { w with level := (set_relay_state env b w.level).2.1 }).2) := by
  simp [zb_attribute_handler, on_off_write, HA_TARGET_HUMIDITY_ENDPOINT, HA_ONOFF_SWITCH_ENDPOINT,
    ESP_ZB_ZCL_STATUS_SUCCESS]

/-- C7: an attribute write of the boolean `b` to the on/off attribute of the switch endpoint
is accepted, writes the relay level of `b` at once (the relay is at that level whenever the
GPIO write succeeds) and leaves every driver variable, in particular the timer, the
consumption counter and the threshold, as it was. -/
theorem override_sets_relay_only (env : Env) (w : World) (b : Bool) (x : ℚ) :
    ∃ w1 evs, zb_attribute_handler env (some (on_off_write b x)) w = some (ESP_OK, w1, evs) ∧
      evs.head? = some (Event.gpio_write RELAY_PIN (if b then 0 else 1)) ∧
      w1.level RELAY_PIN =
        (if env.gpio_status RELAY_PIN = ESP_OK then (if b then 0 else 1) else w.level RELAY_PIN) ∧
      w1.drv.minutes_since_last_pump = w.drv.minutes_since_last_pump ∧
      w1.drv.water_consumption_cycles = w.drv.water_consumption_cycles ∧
      w1.drv.target_min_humidity = w.drv.target_min_humidity ∧
      w1.drv = w.drv := by
  refine ⟨_, _, zb_attribute_handler_on_off env w b x, ?_, ?_, rfl, rfl, rfl, rfl⟩
  · simp [set_relay_state]
  · unfold esp_app_water_consumption_handler set_relay_state gpio_set_level
    by_cases h : env.gpio_status RELAY_PIN = ESP_OK
    · simp [h]
    · simp [h]

/-! ### Evaluations -/

/-- C1: seven cycles after a start with a 60 s interval, every channel at 1662 mV (moisture
about 35 %), threshold 40: the seventh cycle finds the timer at 6 minutes and still does not
activate the pump (no cycle writes the relay pin), because the minimum is taken over the
millivolt readings. -/
theorem minimum_taken_over_readings :
    35 < calculate_humidity 1662 ∧ calculate_humidity 1662 < 40 ∧
    (started 60).drv.target_min_humidity = 40 ∧
    (run env_ok (List.replicate 7 (steady 1662)) (started 60)).map
        (fun os => os.map (fun o => (summary o, relay_writes o.events))) =
      some [((false, 0), []), ((false, 1), []), ((false, 2), []), ((false, 3), []),
        ((false, 4), []), ((false, 5), []), ((false, 6), [])] := by
  decide!

/-- C2: seven cycles after a start with a 60 s interval, every channel at 30 mV (moisture
invalid on every channel), threshold set to 40 through `set_min_humidity`: the seventh cycle
activates the pump, driving the relay on and off. -/
theorem invalid_readings_activate :
    calculate_humidity 30 = -1 ∧
    (run env_ok
        ({ calls := [Call.set_min_humidity 40], samples := uniform 30 30 } ::
          List.replicate 6 (steady 30))
        (started 60)).map (fun os => os.map (fun o => (summary o, relay_writes o.events))) =
      some [((false, 0), []), ((false, 1), []), ((false, 2), []), ((false, 3), []),
        ((false, 4), []), ((false, 5), []), ((true, 6), [0, 1])] := by
  decide!

/-- C6: `set_min_humidity(40.5f)` stores 40; started with a 60 s interval and every channel
at 40 mV, no iteration activates the pump, not even the seventh, which finds the timer at
6 minutes and the minimum at 40, below 40.5. -/
theorem threshold_fraction_lost :
    (set_min_humidity (81 / 2) boot_driver).map (fun d => d.target_min_humidity) = some 40 ∧
    f32 (81 / 2) = 81 / 2 ∧ int_to_float 40 < 81 / 2 ∧
    (run env_ok
        ({ calls := [Call.set_min_humidity (81 / 2)], samples := uniform 40 40 } ::
          List.replicate 6 (steady 40))
        (started 60)).map (fun os => os.map summary) =
      some [(false, 0), (false, 1), (false, 2), (false, 3), (false, 4), (false, 5), (false, 6)] := by
  decide!

/-- C9: with curve fitting available for the first sensor channel only, `init_driver` leaves
`calibration_enabled` set, every handle being created for `sensor_pins[0]`. -/
theorem calibration_uses_first_pin :
    env_first_channel_only.cali_create (env_first_channel_only.sensor_pins 0) = ESP_OK ∧
    env_first_channel_only.cali_create (env_first_channel_only.sensor_pins 1) ≠ ESP_OK ∧
    (init_driver env_first_channel_only 5 true true boot_driver).map
        (fun r => (r.1, r.2.calibration_enabled, r.2.calibration_handles)) =
      some (ESP_OK, true, [some 1, some 1, none]) := by
  decide

/-- C5, as stated, fails: started with a 60 s interval and every channel at 30 mV, the
seventh iteration finds the timer at 6 minutes, activates the pump and leaves the timer at
1 minute, not at 0. -/
theorem timer_after_activation_not_zero :
    (run env_ok (List.replicate 7 (steady 30)) (started 60)).map
        (fun os => os.map (fun o => (summary o, o.world.drv.minutes_since_last_pump))) =
      some [((false, 0), 1), ((false, 1), 2), ((false, 2), 3), ((false, 3), 4), ((false, 4), 5),
        ((false, 5), 6), ((true, 6), 1)] := by
  decide!

/-- A driver started with a 3 s interval, which the application does not configure,
activates the pump at cycles 100 and 200 (counted from 0) although
`(200 - 100) * 3 / 60 = 5` minutes is not more than the cooldown: the timer accumulated in
binary32 stands at `5242881 / 1048576`. -/
theorem cooldown_boundary_crossed_early :
    ((200 - 100 : ℚ) * 3 / 60 ≤ (RELAY_MIN_TIME_BETWEEN_CYCLES_M : ℚ)) ∧
    (run env_ok (List.replicate 201 (steady 30)) (started 3)).map
        (fun os => ((os.map summary)[100]?, (os.map summary)[200]?)) =
      some (some (true, 5242881 / 1048576), some (true, 5242881 / 1048576)) := by
  decide!

/-! ### One iteration of `measure_task` -/

theorem eq_some_getD {α : Type} (x : Option α) (d : α) (h : x.isSome = true) :
    x = some (x.getD d) := by
  cases x with
  | none => simp at h
  | some a => rfl

theorem consumption_calls_append (a b : List Event) :
    consumption_calls (a ++ b) = consumption_calls a ++ consumption_calls b := by
  induction a with
  | nil => rfl
  | cons e es ih => cases e <;> simp [consumption_calls, ih]

theorem read_channel_calls {c r : Bool} {smp : Sample} {i : Nat} {m m1 : ℚ} {ev : List Event}
    (h : read_channel c r smp i m = some (m1, ev)) : consumption_calls ev = [] := by
  unfold read_channel at h
  split at h
  · exact absurd h (by simp)
  · split at h
    · exact absurd h (by simp)
    · simp only [Option.some.injEq, Prod.mk.injEq] at h
      rw [← h.2]
      cases r <;> simp [consumption_calls]

theorem sample_loop_calls {c r : Bool} {samples : Nat → Sample} (n : Nat) :
    ∀ (i : Nat) (m m1 : ℚ) (ev : List Event),
      sample_loop c r samples n i m = some (m1, ev) → consumption_calls ev = [] := by
  induction n with
  | zero =>
    intro i m m1 ev h
    simp only [sample_loop, Option.some.injEq, Prod.mk.injEq] at h
    rw [← h.2]
    rfl
  | succ n ih =>
    intro i m m1 ev h
    simp only [sample_loop] at h
    split at h
    · exact absurd h (by simp)
    · rename_i ma eva hread
      split at h
      · exact absurd h (by simp)
      · rename_i mb evb hloop
        simp only [Option.some.injEq, Prod.mk.injEq] at h
        rw [← h.2, consumption_calls_append, read_channel_calls hread, ih _ _ _ _ hloop]
        rfl

/-- What a completed iteration did to the driver variables, by the branch it took. -/
theorem measure_cycle_effect {env : Env} {samples : Nat → Sample} {w : World} {o : Outcome}
    (h : measure_cycle env samples w = some o) :
    o.before = w.drv ∧ o.world.drv.interval = w.drv.interval ∧
    (o.activated = true →
      w.drv.minutes_since_last_pump > int_to_float RELAY_MIN_TIME_BETWEEN_CYCLES_M ∧
      o.world.drv.minutes_since_last_pump = advance 0 w.drv.interval ∧
      o.world.drv.water_consumption_cycles = (w.drv.water_consumption_cycles + 1) % 65536 ∧
      consumption_calls o.events = [(w.drv.water_consumption_cycles + 1) % 65536]) ∧
    (o.activated = false →
      o.world.drv.minutes_since_last_pump =
        advance w.drv.minutes_since_last_pump w.drv.interval ∧
      o.world.drv.water_consumption_cycles = w.drv.water_consumption_cycles ∧
      consumption_calls o.events = []) := by
  unfold measure_cycle at h
  simp only at h
  split at h
  · exact absurd h (by simp)
  · rename_i m ev2 hloop
    have hev2 := sample_loop_calls _ _ _ _ _ hloop
    split at h
    · rename_i hcond
      split at h
      · exact absurd h (by simp)
      · simp only [Option.some.injEq] at h
        subst h
        simp only [pump_condition, decide_eq_true_eq] at hcond
        refine ⟨rfl, rfl, fun _ => ⟨hcond.2, rfl, rfl, ?_⟩, fun hf => absurd hf (by simp)⟩
        simp [consumption_calls_append, hev2, consumption_calls, set_relay_state]
    · simp only [Option.some.injEq] at h
      subst h
      refine ⟨rfl, rfl, fun ht => absurd ht (by simp), fun _ => ⟨rfl, rfl, ?_⟩⟩
      simp [consumption_calls_append, hev2, consumption_calls]

/-! ### Calls from the Zigbee task -/

/-- The function `set_min_humidity` changes the threshold only. -/
theorem set_min_humidity_frame {value : ℚ} {d d1 : Driver}
    (h : set_min_humidity value d = some d1) :
    d1.minutes_since_last_pump = d.minutes_since_last_pump ∧ d1.interval = d.interval ∧
      d1.water_consumption_cycles = d.water_consumption_cycles := by
  unfold set_min_humidity at h
  split at h
  · exact absurd h (by simp)
  · simp only [Option.some.injEq] at h
    subst h
    exact ⟨rfl, rfl, rfl⟩

theorem zb_attribute_handler_frame {env : Env} {message : Option Message} {w : World}
    {r : Int × World × List Event} (h : zb_attribute_handler env message w = some r) :
    r.2.1.drv.minutes_since_last_pump = w.drv.minutes_since_last_pump ∧
      r.2.1.drv.interval = w.drv.interval ∧
      r.2.1.drv.water_consumption_cycles = w.drv.water_consumption_cycles := by
  unfold zb_attribute_handler at h
  split at h
  · simp only [Option.some.injEq] at h
    subst h
    exact ⟨rfl, rfl, rfl⟩
  · rename_i msg
    split at h
    · simp only [Option.some.injEq] at h
      subst h
      exact ⟨rfl, rfl, rfl⟩
    · simp only at h
      split at h
      · exact absurd h (by simp)
      · rename_i w1 hw1
        have hframe : w1.drv.minutes_since_last_pump = w.drv.minutes_since_last_pump ∧
            w1.drv.interval = w.drv.interval ∧
            w1.drv.water_consumption_cycles = w.drv.water_consumption_cycles := by
          split at hw1
          · split at hw1
            · exact absurd hw1 (by simp)
            · split at hw1
              · exact absurd hw1 (by simp)
              · rename_i d hd
                simp only [Option.some.injEq] at hw1
                subst hw1
                exact set_min_humidity_frame hd
          · simp only [Option.some.injEq] at hw1
            subst hw1
            exact ⟨rfl, rfl, rfl⟩
        split at h
        · simp only [Option.some.injEq] at h
          subst h
          exact hframe
        · simp only [Option.some.injEq] at h
          subst h
          exact hframe

theorem apply_call_frame {env : Env} {c : Call} {w w1 : World}
    (h : apply_call env c w = some w1) :
    w1.drv.minutes_since_last_pump = w.drv.minutes_since_last_pump ∧
      w1.drv.interval = w.drv.interval ∧
      w1.drv.water_consumption_cycles = w.drv.water_consumption_cycles := by
  unfold apply_call at h
  split at h
  · split at h
    · exact absurd h (by simp)
    · rename_i d hd
      simp only [Option.some.injEq] at h
      subst h
      exact set_min_humidity_frame hd
  · split at h
    · exact absurd h (by simp)
    · rename_i r hr
      simp only [Option.some.injEq] at h
      subst h
      exact zb_attribute_handler_frame hr

theorem apply_calls_frame {env : Env} (cs : List Call) :
    ∀ (w w1 : World), apply_calls env cs w = some w1 →
      w1.drv.minutes_since_last_pump = w.drv.minutes_since_last_pump ∧
        w1.drv.interval = w.drv.interval ∧
        w1.drv.water_consumption_cycles = w.drv.water_consumption_cycles := by
  induction cs with
  | nil =>
    intro w w1 h
    simp only [apply_calls, Option.some.injEq] at h
    subst h
    exact ⟨rfl, rfl, rfl⟩
  | cons c cs ih =>
    intro w w1 h
    simp only [apply_calls] at h
    split at h
    · exact absurd h (by simp)
    · rename_i w2 hw2
      have h1 := apply_call_frame hw2
      have h2 := ih _ _ h
      exact ⟨h2.1.trans h1.1, h2.2.1.trans h1.2.1, h2.2.2.trans h1.2.2⟩

/-- A run of at least one iteration: the calls, the first iteration, then the rest. -/
theorem run_cons {env : Env} {c : CycleInput} {cs : List CycleInput} {w : World}
    {outs : List Outcome} (h : run env (c :: cs) w = some outs) :
    ∃ w1 o os, apply_calls env c.calls w = some w1 ∧ measure_cycle env c.samples w1 = some o ∧
      run env cs o.world = some os ∧ outs = o :: os := by
  simp only [run] at h
  split at h
  · exact absurd h (by simp)
  · rename_i w1 hw1
    split at h
    · exact absurd h (by simp)
    · rename_i o ho
      split at h
      · exact absurd h (by simp)
      · rename_i os hos
        simp only [Option.some.injEq] at h
        exact ⟨w1, o, os, hw1, ho, hos, h.symm⟩

/-! ### Runs -/

theorem advance_n_succ (interval : Int) (n : Nat) :
    ∀ t : ℚ, advance_n interval (n + 1) t = advance (advance_n interval n t) interval := by
  induction n with
  | zero => intro t; rfl
  | succ n ih =>
    intro t
    show advance_n interval (n + 1) (advance t interval) = _
    rw [ih]
    rfl

theorem stays_below_spec (interval : Int) (bound : ℚ) (n : Nat) :
    ∀ t : ℚ, stays_below interval bound n t = true →
      ∀ k, k ≤ n → advance_n interval k t ≤ bound := by
  induction n with
  | zero =>
    intro t h k hk
    have hk0 : k = 0 := by omega
    subst hk0
    simpa [stays_below, advance_n] using h
  | succ n ih =>
    intro t h k hk
    simp only [stays_below, Bool.and_eq_true, decide_eq_true_eq] at h
    cases k with
    | zero => exact h.1
    | succ k => exact ih _ h.2 k (by omega)

/-- With the 5 s interval of the application the binary32 timer is at most 5 minutes during
the first 60 iterations after a reset to 0. -/
theorem timer_within_cooldown (k : Nat) (hk : k ≤ 60) :
    advance_n MEASUREMENT_INTERVAL_S k 0 ≤ 5 :=
  stays_below_spec MEASUREMENT_INTERVAL_S 5 60 0 (by decide!) k hk

theorem cooldown_as_float : int_to_float RELAY_MIN_TIME_BETWEEN_CYCLES_M = 5 := by decide!

/-- Every outcome of a run is the outcome of one iteration. -/
theorem run_outcome {env : Env} (inputs : List CycleInput) :
    ∀ (w : World) (outs : List Outcome) (k : Nat) (o : Outcome),
      run env inputs w = some outs → outs[k]? = some o →
      ∃ samples w1, measure_cycle env samples w1 = some o := by
  induction inputs with
  | nil =>
    intro w outs k o h hk
    simp only [run, Option.some.injEq] at h
    subst h
    simp at hk
  | cons c cs ih =>
    intro w outs k o h hk
    obtain ⟨w1, o0, os, _, ho0, hos, rfl⟩ := run_cons h
    cases k with
    | zero =>
      simp only [List.getElem?_cons_zero, Option.some.injEq] at hk
      subst hk
      exact ⟨_, _, ho0⟩
    | succ k =>
      rw [List.getElem?_cons_succ] at hk
      exact ih _ _ _ _ hos hk

/-- The rest of a run is a run from the state an iteration left. -/
theorem run_suffix {env : Env} (inputs : List CycleInput) :
    ∀ (w : World) (outs : List Outcome) (j : Nat) (o : Outcome),
      run env inputs w = some outs → outs[j]? = some o →
      run env (inputs.drop (j + 1)) o.world = some (outs.drop (j + 1)) := by
  induction inputs with
  | nil =>
    intro w outs j o h hj
    simp only [run, Option.some.injEq] at h
    subst h
    simp at hj
  | cons c cs ih =>
    intro w outs j o h hj
    obtain ⟨w1, o0, os, _, _, hos, rfl⟩ := run_cons h
    cases j with
    | zero =>
      simp only [List.getElem?_cons_zero, Option.some.injEq] at hj
      subst hj
      simpa using hos
    | succ j =>
      rw [List.getElem?_cons_succ] at hj
      simpa using ih _ _ _ _ hos hj

/-- The timer an iteration finds is the timer of some number of iterations since the last
reset, at most the number of iterations run so far. -/
theorem timer_reach {env : Env} (interval : Int) (inputs : List CycleInput) :
    ∀ (w : World) (outs : List Outcome) (n0 k : Nat) (o : Outcome),
      run env inputs w = some outs → w.drv.interval = interval →
      w.drv.minutes_since_last_pump = advance_n interval n0 0 → outs[k]? = some o →
      ∃ n, n ≤ n0 + k ∧ o.before.minutes_since_last_pump = advance_n interval n 0 := by
  induction inputs with
  | nil =>
    intro w outs n0 k o h _ _ hk
    simp only [run, Option.some.injEq] at h
    subst h
    simp at hk
  | cons c cs ih =>
    intro w outs n0 k o h hint htimer hk
    obtain ⟨w1, o0, os, hw1, ho0, hos, rfl⟩ := run_cons h
    have hframe := apply_calls_frame _ _ _ hw1
    have heff := measure_cycle_effect ho0
    cases k with
    | zero =>
      simp only [List.getElem?_cons_zero, Option.some.injEq] at hk
      subst hk
      exact ⟨n0, by omega, by rw [heff.1, hframe.1, htimer]⟩
    | succ k =>
      rw [List.getElem?_cons_succ] at hk
      have hint1 : o0.world.drv.interval = interval := by rw [heff.2.1, hframe.2.1, hint]
      cases hact : o0.activated with
      | true =>
        have ht : o0.world.drv.minutes_since_last_pump = advance_n interval 1 0 := by
          rw [(heff.2.2.1 hact).2.1, hframe.2.1, hint]
          rfl
        obtain ⟨n, hn, hval⟩ := ih _ _ 1 k o hos hint1 ht hk
        exact ⟨n, by omega, hval⟩
      | false =>
        have ht : o0.world.drv.minutes_since_last_pump = advance_n interval (n0 + 1) 0 := by
          rw [(heff.2.2.2 hact).1, hframe.2.1, hframe.1, hint, htimer, advance_n_succ]
        obtain ⟨n, hn, hval⟩ := ih _ _ (n0 + 1) k o hos hint1 ht hk
        exact ⟨n, by omega, hval⟩

/-- The interval is the same throughout a run. -/
theorem run_interval {env : Env} (inputs : List CycleInput) :
    ∀ (w : World) (outs : List Outcome) (k : Nat) (o : Outcome),
      run env inputs w = some outs → outs[k]? = some o →
      o.before.interval = w.drv.interval ∧ o.world.drv.interval = w.drv.interval := by
  induction inputs with
  | nil =>
    intro w outs k o h hk
    simp only [run, Option.some.injEq] at h
    subst h
    simp at hk
  | cons c cs ih =>
    intro w outs k o h hk
    obtain ⟨w1, o0, os, hw1, ho0, hos, rfl⟩ := run_cons h
    have hframe := apply_calls_frame _ _ _ hw1
    have heff := measure_cycle_effect ho0
    cases k with
    | zero =>
      simp only [List.getElem?_cons_zero, Option.some.injEq] at hk
      subst hk
      exact ⟨by rw [heff.1, hframe.2.1], by rw [heff.2.1, hframe.2.1]⟩
    | succ k =>
      rw [List.getElem?_cons_succ] at hk
      have h1 := ih _ _ _ _ hos hk
      have h2 : o0.world.drv.interval = w.drv.interval := by rw [heff.2.1, hframe.2.1]
      exact ⟨h1.1.trans h2, h1.2.trans h2⟩

/-- An activation only happens with the timer strictly above 5 minutes. -/
theorem run_activation_strict {env : Env} {inputs : List CycleInput} {w : World}
    {outs : List Outcome} (hrun : run env inputs w = some outs) (k : Nat) (o : Outcome)
    (hk : outs[k]? = some o) (hact : o.activated = true) :
    o.before.minutes_since_last_pump > 5 := by
  obtain ⟨samples, w1, ho⟩ := run_outcome inputs w outs k o hrun hk
  have heff := measure_cycle_effect ho
  have h5 := (heff.2.2.1 hact).1
  rw [cooldown_as_float] at h5
  rw [heff.1]
  exact h5

/-- With the 5 s interval, an iteration at most 60 iterations after a reset of the timer
does not activate the pump. -/
theorem run_no_activation_within {env : Env} {inputs : List CycleInput} {w : World}
    {outs : List Outcome} (hrun : run env inputs w = some outs)
    (hinterval : w.drv.interval = MEASUREMENT_INTERVAL_S) (n0 : Nat)
    (htimer : w.drv.minutes_since_last_pump = advance_n MEASUREMENT_INTERVAL_S n0 0)
    (k : Nat) (o : Outcome) (hk : outs[k]? = some o) (hwin : n0 + k ≤ 60) :
    o.activated = false := by
  by_contra hcon
  have hact : o.activated = true := by simpa using hcon
  obtain ⟨n, hn, hval⟩ := timer_reach MEASUREMENT_INTERVAL_S inputs w outs n0 k o hrun hinterval
    htimer hk
  have h1 := run_activation_strict hrun k o hk hact
  have h2 := timer_within_cooldown n (by omega)
  rw [hval] at h1
  exact absurd h2 (not_le.mpr h1)

/-- C4: in every run of `measure_task` as the application starts it (`interval` is
`MEASUREMENT_INTERVAL_S`, the argument of the one call of `init_driver`), whatever the
readings and the calls from the Zigbee task: an iteration activates the pump only when it
finds the timer strictly above the cooldown, so never when the timer equals the cooldown; an
activation at iteration `j` is followed by no activation at any iteration `k > j` with
`(k - j) * interval / 60 ≤ RELAY_MIN_TIME_BETWEEN_CYCLES_M`; and from the boot state
(timer 0) no iteration `k` with `k * interval / 60 ≤ RELAY_MIN_TIME_BETWEEN_CYCLES_M`
activates. -/
theorem cooldown_respected (env : Env) (inputs : List CycleInput) (w : World)
    (outs : List Outcome) (hrun : run env inputs w = some outs) :
    (∀ (k : Nat) (o : Outcome), outs[k]? = some o → o.activated = true →
      o.before.minutes_since_last_pump > (RELAY_MIN_TIME_BETWEEN_CYCLES_M : ℚ)) ∧
    (∀ (k : Nat) (o : Outcome), outs[k]? = some o →
      o.before.minutes_since_last_pump = (RELAY_MIN_TIME_BETWEEN_CYCLES_M : ℚ) →
      o.activated = false) ∧
    (w.drv.interval = MEASUREMENT_INTERVAL_S →
      (∀ (j k : Nat) (oj ok : Outcome), outs[j]? = some oj → outs[k]? = some ok → j < k →
        oj.activated = true →
        ((k : ℚ) - (j : ℚ)) * (w.drv.interval : ℚ) / 60 ≤
          (RELAY_MIN_TIME_BETWEEN_CYCLES_M : ℚ) →
        ok.activated = false) ∧
      (w.drv.minutes_since_last_pump = 0 → ∀ (k : Nat) (ok : Outcome), outs[k]? = some ok →
        (k : ℚ) * (w.drv.interval : ℚ) / 60 ≤ (RELAY_MIN_TIME_BETWEEN_CYCLES_M : ℚ) →
        ok.activated = false)) := by
  have hstrict : ∀ (k : Nat) (o : Outcome), outs[k]? = some o → o.activated = true →
      o.before.minutes_since_last_pump > (RELAY_MIN_TIME_BETWEEN_CYCLES_M : ℚ) := by
    intro k o hk hact
    have := run_activation_strict hrun k o hk hact
    simpa [RELAY_MIN_TIME_BETWEEN_CYCLES_M] using this
  refine ⟨hstrict, ?_, fun hinterval => ⟨?_, ?_⟩⟩
  · intro k o hk heq
    by_contra hcon
    have hact : o.activated = true := by simpa using hcon
    have := hstrict k o hk hact
    rw [heq] at this
    exact lt_irrefl _ this
  · intro j k oj ok hj hk hjk hact hwin
    have hsuf := run_suffix inputs w outs j oj hrun hj
    obtain ⟨samples, w1, hoj⟩ := run_outcome inputs w outs j oj hrun hj
    have heff := measure_cycle_effect hoj
    have hint := run_interval inputs w outs j oj hrun hj
    have hint1 : oj.world.drv.interval = MEASUREMENT_INTERVAL_S := by rw [hint.2, hinterval]
    have hint2 : w1.drv.interval = MEASUREMENT_INTERVAL_S := by rw [← heff.1, hint.1, hinterval]
    have ht : oj.world.drv.minutes_since_last_pump = advance_n MEASUREMENT_INTERVAL_S 1 0 := by
      rw [(heff.2.2.1 hact).2.1, hint2]
      rfl
    have hk1 : (outs.drop (j + 1))[k - (j + 1)]? = some ok := by
      rw [List.getElem?_drop, ← hk]
      congr 1
      omega
    rw [hinterval] at hwin
    simp only [MEASUREMENT_INTERVAL_S, RELAY_MIN_TIME_BETWEEN_CYCLES_M, Int.cast_ofNat] at hwin
    have hq : (k : ℚ) ≤ (j : ℚ) + 60 := by linarith
    have hn : k ≤ j + 60 := by exact_mod_cast hq
    exact run_no_activation_within hsuf hint1 1 ht _ ok hk1 (by omega)
  · intro hboot k ok hk hwin
    rw [hinterval] at hwin
    simp only [MEASUREMENT_INTERVAL_S, RELAY_MIN_TIME_BETWEEN_CYCLES_M, Int.cast_ofNat] at hwin
    have hq : (k : ℚ) ≤ 60 := by linarith
    have hn : k ≤ 60 := by exact_mod_cast hq
    exact run_no_activation_within hrun hinterval 0 (by rw [hboot]; rfl) k ok hk (by omega)

/-- Started with the 5 s interval and every channel at 30 mV, the run activates the pump at
iteration 61 and not at iteration 62. -/
theorem cooldown_respected_witness :
    (started 5).drv.interval = MEASUREMENT_INTERVAL_S ∧
    (run env_ok (List.replicate 63 (steady 30)) (started 5)).isSome = true ∧
    (((run env_ok (List.replicate 63 (steady 30)) (started 5)).getD [])[61]?.getD
      (idle boot)).activated = true ∧
    (((run env_ok (List.replicate 63 (steady 30)) (started 5)).getD [])[62]?.getD
      (idle boot)).activated = false := by
  have hfacts : (run env_ok (List.replicate 63 (steady 30)) (started 5)).isSome = true ∧
      (((run env_ok (List.replicate 63 (steady 30)) (started 5)).getD [])[61]?).isSome = true ∧
      (((run env_ok (List.replicate 63 (steady 30)) (started 5)).getD [])[62]?).isSome = true ∧
      (((run env_ok (List.replicate 63 (steady 30)) (started 5)).getD [])[61]?.getD
        (idle boot)).activated = true := by
    decide!
  obtain ⟨hsome, h61, h62, hact⟩ := hfacts
  have hi : (started 5).drv.interval = 5 := by decide
  have h := cooldown_respected env_ok (List.replicate 63 (steady 30)) (started 5)
    ((run env_ok (List.replicate 63 (steady 30)) (started 5)).getD [])
    (eq_some_getD _ _ hsome)
  exact ⟨by decide, hsome, hact,
    (h.2.2 (by decide)).1 61 62 _ _ (eq_some_getD _ (idle boot) h61)
      (eq_some_getD _ (idle boot) h62) (by decide) hact
      (by rw [hi]; norm_num [RELAY_MIN_TIME_BETWEEN_CYCLES_M])⟩

/-! ### The timer -/

/-- C5, amended: an iteration that activates the pump resets the timer to 0 and then, like
every iteration, adds `interval / 60.0f`: at the end of an activating iteration the timer is
`0 + interval / 60`, at the end of any other it is `m + interval / 60`, `m` being the timer
the iteration found (sums and quotient in binary32). -/
theorem timer_update (env : Env) (samples : Nat → Sample) (w : World) (o : Outcome)
    (h : measure_cycle env samples w = some o) :
    (o.activated = true →
      o.world.drv.minutes_since_last_pump = f32 (0 + f32 (int_to_float w.drv.interval / 60))) ∧
    (o.activated = false →
      o.world.drv.minutes_since_last_pump =
        f32 (w.drv.minutes_since_last_pump + f32 (int_to_float w.drv.interval / 60))) := by
  have heff := measure_cycle_effect h
  exact ⟨fun hact => (heff.2.2.1 hact).2.1, fun hact => (heff.2.2.2 hact).1⟩

theorem timer_update_witness :
    (measure_cycle env_ok (uniform 35 35) (running 40 4 5)).isSome = true ∧
    ((measure_cycle env_ok (uniform 35 35) (running 40 4 5)).getD (idle boot)).activated = false ∧
    ((measure_cycle env_ok (uniform 35 35) (running 40 4 5)).getD
        (idle boot)).world.drv.minutes_since_last_pump =
      f32 ((running 40 4 5).drv.minutes_since_last_pump +
        f32 (int_to_float (running 40 4 5).drv.interval / 60)) ∧
    f32 ((running 40 4 5).drv.minutes_since_last_pump +
        f32 (int_to_float (running 40 4 5).drv.interval / 60)) = 8563371 / 2097152 := by
  have hfacts : (measure_cycle env_ok (uniform 35 35) (running 40 4 5)).isSome = true ∧
      ((measure_cycle env_ok (uniform 35 35) (running 40 4 5)).getD (idle boot)).activated
        = false ∧
      f32 ((running 40 4 5).drv.minutes_since_last_pump +
        f32 (int_to_float (running 40 4 5).drv.interval / 60)) = 8563371 / 2097152 := by
    decide!
  exact ⟨hfacts.1, hfacts.2.1,
    (timer_update env_ok (uniform 35 35) (running 40 4 5) _
      (eq_some_getD _ (idle boot) hfacts.1)).2 hfacts.2.1, hfacts.2.2⟩

/-! ### The consumption counter -/

theorem activations_of_all {outs : List Outcome} (h : ∀ o ∈ outs, o.activated = true) :
    activations outs = outs.length := by
  induction outs with
  | nil => rfl
  | cons o os ih =>
    have h1 : o.activated = true := h o (List.mem_cons_self _ _)
    have h2 := ih (fun x hx => h x (List.mem_cons_of_mem _ hx))
    simp only [activations, h1, if_true, h2, List.length_cons]
    omega

/-- The counter an iteration finds is, modulo `2 ^ 16`, the counter at the start of the run
plus the number of activations so far. -/
theorem counter_reach {env : Env} (inputs : List CycleInput) :
    ∀ (w : World) (outs : List Outcome) (k : Nat) (o : Outcome),
      run env inputs w = some outs → outs[k]? = some o →
      o.before.water_consumption_cycles % 65536 =
        (w.drv.water_consumption_cycles + activations (outs.take k)) % 65536 := by
  induction inputs with
  | nil =>
    intro w outs k o h hk
    simp only [run, Option.some.injEq] at h
    subst h
    simp at hk
  | cons c cs ih =>
    intro w outs k o h hk
    obtain ⟨w1, o0, os, hw1, ho0, hos, rfl⟩ := run_cons h
    have hframe := apply_calls_frame _ _ _ hw1
    have heff := measure_cycle_effect ho0
    cases k with
    | zero =>
      simp only [List.getElem?_cons_zero, Option.some.injEq] at hk
      subst hk
      rw [heff.1, hframe.2.2]
      simp [activations]
    | succ k =>
      rw [List.getElem?_cons_succ] at hk
      have h1 := ih _ _ _ _ hos hk
      rw [List.take_succ_cons]
      cases hact : o0.activated with
      | true =>
        have hc := (heff.2.2.1 hact).2.2.1
        rw [hframe.2.2] at hc
        simp only [activations, hact, if_true]
        omega
      | false =>
        have hc := (heff.2.2.2 hact).2.1
        rw [hframe.2.2] at hc
        simp only [activations, hact]
        rw [hc] at h1
        simpa using h1

/-- C10, amended: in a run from a state whose counter is 0 (boot), the activation that
follows `n` earlier ones increments the `uint16_t` counter by 1 modulo `2 ^ 16` and calls the
consumption callback exactly once, with `(n + 1) mod 2 ^ 16`; that is with `n + 1`, the
counter growing by exactly 1, as long as `n + 1 < 65536`.  An iteration without activation
leaves the counter alone and does not call the consumption callback. -/
theorem consumption_counter_spec (env : Env) (inputs : List CycleInput) (w : World)
    (outs : List Outcome) (k : Nat) (o : Outcome)
    (hboot : w.drv.water_consumption_cycles = 0)
    (hrun : run env inputs w = some outs) (hk : outs[k]? = some o) :
    (o.activated = true →
      o.world.drv.water_consumption_cycles = (o.before.water_consumption_cycles + 1) % 65536 ∧
      o.world.drv.water_consumption_cycles = (activations (outs.take k) + 1) % 65536 ∧
      consumption_calls o.events = [(activations (outs.take k) + 1) % 65536] ∧
      (activations (outs.take k) + 1 < 65536 →
        consumption_calls o.events = [activations (outs.take k) + 1] ∧
        o.world.drv.water_consumption_cycles = activations (outs.take k) + 1)) ∧
    (o.activated = false →
      o.world.drv.water_consumption_cycles = o.before.water_consumption_cycles ∧
      consumption_calls o.events = []) := by
  obtain ⟨samples, w1, ho⟩ := run_outcome inputs w outs k o hrun hk
  have heff := measure_cycle_effect ho
  have hreach := counter_reach inputs w outs k o hrun hk
  rw [hboot, heff.1] at hreach
  constructor
  · intro hact
    obtain ⟨_, _, hc, hcalls⟩ := heff.2.2.1 hact
    have hmod : (w1.drv.water_consumption_cycles + 1) % 65536 =
        (activations (outs.take k) + 1) % 65536 := by omega
    refine ⟨by rw [hc, heff.1], by rw [hc, hmod], by rw [hcalls, hmod], fun hlt => ?_⟩
    rw [hcalls, hc, hmod, Nat.mod_eq_of_lt hlt]
    exact ⟨rfl, rfl⟩
  · intro hact
    obtain ⟨_, hc, hcalls⟩ := heff.2.2.2 hact
    exact ⟨by rw [hc, heff.1], hcalls⟩

theorem consumption_counter_spec_witness :
    (started 360).drv.water_consumption_cycles = 0 ∧
    (run env_ok (List.replicate 3 (steady 30)) (started 360)).isSome = true ∧
    (((run env_ok (List.replicate 3 (steady 30)) (started 360)).getD [])[2]?.getD
      (idle boot)).activated = true ∧
    activations (((run env_ok (List.replicate 3 (steady 30)) (started 360)).getD []).take 2)
      + 1 = 2 ∧
    consumption_calls (((run env_ok (List.replicate 3 (steady 30)) (started 360)).getD [])[2]?.getD
      (idle boot)).events =
      [activations (((run env_ok (List.replicate 3 (steady 30)) (started 360)).getD []).take 2)
        + 1] := by
  have hfacts : (run env_ok (List.replicate 3 (steady 30)) (started 360)).isSome = true ∧
      (((run env_ok (List.replicate 3 (steady 30)) (started 360)).getD [])[2]?).isSome = true ∧
      (((run env_ok (List.replicate 3 (steady 30)) (started 360)).getD [])[2]?.getD
        (idle boot)).activated = true ∧
      activations (((run env_ok (List.replicate 3 (steady 30)) (started 360)).getD []).take 2)
        + 1 = 2 := by
    decide!
  obtain ⟨hsome, h2, hact, hcount⟩ := hfacts
  have h := consumption_counter_spec env_ok (List.replicate 3 (steady 30)) (started 360)
    ((run env_ok (List.replicate 3 (steady 30)) (started 360)).getD []) 2 _ (by decide)
    (eq_some_getD _ _ hsome) (eq_some_getD _ (idle boot) h2)
  exact ⟨by decide, hsome, hact, hcount, ((h.1 hact).2.2.2 (by rw [hcount]; decide)).1⟩

/-- With a 360 s interval, the threshold at 40 and every channel at 30 mV, an iteration that
finds the timer at 6 minutes activates the pump and leaves the timer at 6 minutes. -/
theorem steady_cycle_activates (w : World) (hc : w.drv.calibration_enabled = true)
    (hr : w.drv.report_ptr = true) (hp : w.drv.consumption_ptr = true)
    (hT : w.drv.target_min_humidity = 40) (hi : w.drv.interval = 360)
    (ht : w.drv.minutes_since_last_pump = 6) :
    ∃ o, measure_cycle env_ok (uniform 30 30) w = some o ∧ o.activated = true ∧
      o.world.drv.calibration_enabled = true ∧ o.world.drv.report_ptr = true ∧
      o.world.drv.consumption_ptr = true ∧ o.world.drv.target_min_humidity = 40 ∧
      o.world.drv.interval = 360 ∧ o.world.drv.minutes_since_last_pump = 6 := by
  have hloop : sample_loop true true (uniform 30 30) SENSOR_COUNT 0 100 =
      some (30, [Event.report (-1) 0, Event.report (-1) 1]) := by decide!
  have hcond : pump_condition 30 40 6 = true := by decide!
  have hadv : advance 0 360 = 6 := by decide!
  unfold measure_cycle
  simp only [hc, hr, hp, hT, hi, ht, hloop, hcond, if_true, hadv]
  exact ⟨_, rfl, rfl, rfl, rfl, rfl, rfl, rfl, rfl⟩

/-- A run of one more iteration, from its parts. -/
theorem run_step {env : Env} {c : CycleInput} {cs : List CycleInput} {w w1 : World}
    {o : Outcome} {os : List Outcome} (h1 : apply_calls env c.calls w = some w1)
    (h2 : measure_cycle env c.samples w1 = some o) (h3 : run env cs o.world = some os) :
    run env (c :: cs) w = some (o :: os) := by
  simp only [run, h1, h2, h3]

theorem steady_run_activates (n : Nat) :
    ∀ w : World, w.drv.calibration_enabled = true → w.drv.report_ptr = true →
      w.drv.consumption_ptr = true → w.drv.target_min_humidity = 40 → w.drv.interval = 360 →
      w.drv.minutes_since_last_pump = 6 →
      ∃ outs, run env_ok (List.replicate n (steady 30)) w = some outs ∧ outs.length = n ∧
        ∀ o ∈ outs, o.activated = true := by
  induction n with
  | zero =>
    intro w _ _ _ _ _ _
    exact ⟨[], rfl, rfl, fun o ho => absurd ho (List.not_mem_nil o)⟩
  | succ n ih =>
    intro w hc hr hp hT hi ht
    obtain ⟨o, ho, hact, hc1, hr1, hp1, hT1, hi1, ht1⟩ :=
      steady_cycle_activates w hc hr hp hT hi ht
    obtain ⟨os, hos, hlen, hall⟩ := ih o.world hc1 hr1 hp1 hT1 hi1 ht1
    refine ⟨o :: os, ?_, by rw [List.length_cons, hlen], ?_⟩
    · rw [List.replicate_succ]
      exact run_step (c := steady 30) rfl ho hos
    · intro x hx
      rcases List.mem_cons.mp hx with rfl | hx
      · exact hact
      · exact hall x hx

/-- C10, as stated, fails at `k = 65536`: started with a 360 s interval and every channel at
30 mV, the run activates the pump at every iteration but the first; iteration 65536 is
activation number 65536, calls the consumption callback with 0 and leaves the counter at 0,
which is not one more than the counter it found. -/
theorem counter_wraps_at_65536 :
    ∃ outs o, run env_ok (List.replicate 65537 (steady 30)) (started 360) = some outs ∧
      outs[65536]? = some o ∧ o.activated = true ∧
      activations (outs.take 65536) + 1 = 65536 ∧
      consumption_calls o.events = [0] ∧ o.world.drv.water_consumption_cycles = 0 ∧
      o.world.drv.water_consumption_cycles ≠ o.before.water_consumption_cycles + 1 := by
  have hfirst : (measure_cycle env_ok (uniform 30 30) (started 360)).isSome = true ∧
      ((measure_cycle env_ok (uniform 30 30) (started 360)).getD (idle boot)).activated = false ∧
      ((measure_cycle env_ok (uniform 30 30) (started 360)).getD (idle boot)).world.drv =
        { (started 360).drv with minutes_since_last_pump := 6 } ∧
      (started 360).drv.calibration_enabled = true ∧ (started 360).drv.report_ptr = true ∧
      (started 360).drv.consumption_ptr = true ∧ (started 360).drv.target_min_humidity = 40 ∧
      (started 360).drv.interval = 360 ∧ (started 360).drv.water_consumption_cycles = 0 := by
    decide!
  obtain ⟨hsome, hidle, hdrv, hc, hr, hp, hT, hi, hzero⟩ := hfirst
  have ho0 := eq_some_getD _ (idle boot) hsome
  generalize (measure_cycle env_ok (uniform 30 30) (started 360)).getD (idle boot) = o0
    at ho0 hidle hdrv
  obtain ⟨os, hos, hlen, hall⟩ := steady_run_activates 65536 o0.world
    (by rw [hdrv]; exact hc) (by rw [hdrv]; exact hr) (by rw [hdrv]; exact hp)
    (by rw [hdrv]; exact hT) (by rw [hdrv]; exact hi) (by rw [hdrv])
  have hrun : run env_ok (List.replicate 65537 (steady 30)) (started 360) = some (o0 :: os) := by
    rw [show (65537 : Nat) = 65536 + 1 from rfl, List.replicate_succ]
    exact run_step (c := steady 30) rfl ho0 hos
  have hlt : 65535 < os.length := by omega
  have hk : (o0 :: os)[65536]? = some (os.get ⟨65535, hlt⟩) := by
    rw [show (65536 : Nat) = 65535 + 1 from rfl, List.getElem?_cons_succ]
    exact List.getElem?_eq_getElem hlt
  have hact : (os.get ⟨65535, hlt⟩).activated = true := hall _ (List.get_mem _ _ _)
  have htake : activations ((o0 :: os).take 65536) = 65535 := by
    rw [show (65536 : Nat) = 65535 + 1 from rfl, List.take_succ_cons]
    have hall1 : ∀ o ∈ os.take 65535, o.activated = true :=
      fun o ho => hall o (List.mem_of_mem_take ho)
    simp only [activations, hidle, Bool.false_eq_true, if_false, activations_of_all hall1,
      List.length_take]
    omega
  obtain ⟨samples, w1, ho⟩ := run_outcome _ _ _ _ _ hrun hk
  have heff := measure_cycle_effect ho
  have hreach := counter_reach _ _ _ _ _ hrun hk
  rw [htake, hzero, heff.1] at hreach
  obtain ⟨_, _, hcount, hcallsv⟩ := heff.2.2.1 hact
  have hmod : (w1.drv.water_consumption_cycles + 1) % 65536 = 0 := by omega
  refine ⟨o0 :: os, os.get ⟨65535, hlt⟩, hrun, hk, hact, by rw [htake], ?_, ?_, ?_⟩
  · rw [hcallsv, hmod]
  · rw [hcount, hmod]
  · rw [hcount, hmod]
    omega

/-! ### The pump and the flag `activated` -/

theorem relay_writes_append (a b : List Event) :
    relay_writes (a ++ b) = relay_writes a ++ relay_writes b := by
  induction a with
  | nil => rfl
  | cons e es ih =>
    cases e with
    | gpio_write pin level =>
      by_cases hp : pin = RELAY_PIN <;> simp [relay_writes, hp, ih]
    | delay_ms ms => simp [relay_writes, ih]
    | report value channel => simp [relay_writes, ih]
    | consumption cycles => simp [relay_writes, ih]
    | zb_set e c a v => simp [relay_writes, ih]

theorem read_channel_relay {c r : Bool} {smp : Sample} {i : Nat} {m m1 : ℚ} {ev : List Event}
    (h : read_channel c r smp i m = some (m1, ev)) : relay_writes ev = [] := by
  unfold read_channel at h
  split at h
  · exact absurd h (by simp)
  · split at h
    · exact absurd h (by simp)
    · simp only [Option.some.injEq, Prod.mk.injEq] at h
      rw [← h.2]
      cases r <;> simp [relay_writes]

theorem sample_loop_relay {c r : Bool} {samples : Nat → Sample} (n : Nat) :
    ∀ (i : Nat) (m m1 : ℚ) (ev : List Event),
      sample_loop c r samples n i m = some (m1, ev) → relay_writes ev = [] := by
  induction n with
  | zero =>
    intro i m m1 ev h
    simp only [sample_loop, Option.some.injEq, Prod.mk.injEq] at h
    rw [← h.2]
    rfl
  | succ n ih =>
    intro i m m1 ev h
    simp only [sample_loop] at h
    split at h
    · exact absurd h (by simp)
    · rename_i ma eva hread
      split at h
      · exact absurd h (by simp)
      · rename_i mb evb hloop
        simp only [Option.some.injEq, Prod.mk.injEq] at h
        rw [← h.2, relay_writes_append, read_channel_relay hread, ih _ _ _ _ hloop]
        rfl

/-- An iteration that takes the branch of `driver.c` 102-111 drives the relay on (level 0)
and then off (level 1); any other iteration does not write the relay pin. -/
theorem activation_drives_relay {env : Env} {samples : Nat → Sample} {w : World} {o : Outcome}
    (h : measure_cycle env samples w = some o) :
    relay_writes o.events = if o.activated then [0, 1] else [] := by
  unfold measure_cycle at h
  simp only at h
  split at h
  · exact absurd h (by simp)
  · rename_i m ev2 hloop
    have hev2 := sample_loop_relay _ _ _ _ _ hloop
    split at h
    · split at h
      · exact absurd h (by simp)
      · simp only [Option.some.injEq] at h
        subst h
        simp [relay_writes_append, hev2, relay_writes, set_relay_state, SENSOR_POWER_PIN,
          RELAY_PIN]
    · simp only [Option.some.injEq] at h
      subst h
      simp [relay_writes_append, hev2, relay_writes, SENSOR_POWER_PIN, RELAY_PIN]

/-- The first call of `init_driver` enables calibration exactly when curve fitting is
available for `sensor_pins[0]`. -/
theorem init_driver_calibration (env : Env) (interval_s : Int) (cb water_cb : Bool)
    (r : Int × Driver) (h : init_driver env interval_s cb water_cb boot_driver = some r) :
    (r.2.calibration_enabled = true ↔ env.cali_create (env.sensor_pins 0) = ESP_OK) := by
  unfold init_driver at h
  simp only [boot_driver, Bool.false_eq_true, if_false] at h
  split at h
  · exact absurd h (by simp)
  · split at h
    · exact absurd h (by simp)
    · simp only [Option.some.injEq] at h
      subst h
      simp [calibrate_all, adc_calibration_init, SENSOR_COUNT]

/-! ### Completion of an iteration -/

theorem sample_loop_returns (c r : Bool) (samples : Nat → Sample) (n : Nat) :
    ∀ (i : Nat) (m : ℚ),
      (∀ j, i ≤ j → j < i + n →
        (samples j).read_status = ESP_OK ∧ (c = true → (samples j).cali_status = ESP_OK)) →
      (sample_loop c r samples n i m).isSome = true := by
  induction n with
  | zero =>
    intro i m _
    rfl
  | succ n ih =>
    intro i m h
    obtain ⟨hread, hcali⟩ := h i le_rfl (by omega)
    have hch : ∃ m1 ev1, read_channel c r (samples i) i m = some (m1, ev1) := by
      unfold read_channel
      rw [if_neg (not_not.mpr hread), if_neg (fun hcon => hcon.2 (hcali hcon.1))]
      exact ⟨_, _, rfl⟩
    obtain ⟨m1, ev1, hm1⟩ := hch
    have hrest := ih (i + 1) m1 (fun j hj1 hj2 => h j (by omega) (by omega))
    simp only [sample_loop, hm1]
    cases hloop : sample_loop c r samples n (i + 1) m1 with
    | none => rw [hloop] at hrest; exact absurd hrest (by simp)
    | some p => rfl

/-- An iteration of `measure_task` completes when every ADC read and conversion succeeds and
the consumption callback is registered. -/
theorem measure_cycle_returns (env : Env) (samples : Nat → Sample) (w : World)
    (hreads : ∀ j, j < SENSOR_COUNT →
      (samples j).read_status = ESP_OK ∧
        (w.drv.calibration_enabled = true → (samples j).cali_status = ESP_OK))
    (hcb : w.drv.consumption_ptr = true) :
    (measure_cycle env samples w).isSome = true := by
  have hloop := sample_loop_returns w.drv.calibration_enabled w.drv.report_ptr samples
    SENSOR_COUNT 0 100 (fun j _ hj => hreads j (by omega))
  unfold measure_cycle
  simp only
  cases hl : sample_loop w.drv.calibration_enabled w.drv.report_ptr samples SENSOR_COUNT 0 100 with
  | none => rw [hl] at hloop; exact absurd hloop (by simp)
  | some p =>
    simp only [hcb]
    split
    · rfl
    · rfl

/-! ### Reports -/

theorem report_calls_append (a b : List Event) :
    report_calls (a ++ b) = report_calls a ++ report_calls b := by
  induction a with
  | nil => rfl
  | cons e es ih => cases e <;> simp [report_calls, ih]

theorem read_channel_reports {c : Bool} {smp : Sample} {i : Nat} {m m1 : ℚ} {ev : List Event}
    (h : read_channel c true smp i m = some (m1, ev)) :
    report_calls ev = [(calculate_humidity (channel_value c smp), i)] := by
  unfold read_channel at h
  split at h
  · exact absurd h (by simp)
  · split at h
    · exact absurd h (by simp)
    · simp only [Option.some.injEq, Prod.mk.injEq] at h
      rw [← h.2]
      simp [report_calls, channel_value]

theorem sample_loop_reports {c : Bool} {samples : Nat → Sample} (n : Nat) :
    ∀ (i : Nat) (m m1 : ℚ) (ev : List Event),
      sample_loop c true samples n i m = some (m1, ev) →
      report_calls ev =
        (List.range n).map
          (fun j => (calculate_humidity (channel_value c (samples (i + j))), i + j)) := by
  induction n with
  | zero =>
    intro i m m1 ev h
    simp only [sample_loop, Option.some.injEq, Prod.mk.injEq] at h
    rw [← h.2]
    rfl
  | succ n ih =>
    intro i m m1 ev h
    simp only [sample_loop] at h
    split at h
    · exact absurd h (by simp)
    · rename_i ma eva hread
      split at h
      · exact absurd h (by simp)
      · rename_i mb evb hloop
        simp only [Option.some.injEq, Prod.mk.injEq] at h
        rw [← h.2, report_calls_append, read_channel_reports hread, ih _ _ _ _ hloop,
          List.range_succ_eq_map]
        simp only [List.map_cons, List.map_map, List.singleton_append, Nat.add_zero]
        congr 1
        apply List.map_congr_left
        intro j _
        simp only [Function.comp, Nat.succ_eq_add_one]
        rw [show i + 1 + j = i + (j + 1) by omega]

/-- C11: a completed iteration of `measure_task` with a registered reading callback calls it
once per channel, in channel order: the calls are `(calculate_humidity(v_0), 0)`, ...,
`(calculate_humidity(v_{N-1}), N-1)`, with `N = SENSOR_COUNT = 2` and `v_i` the reading of
channel `i`, and the value is `-1.0` for every channel whose reading is out of range. -/
theorem reports_per_channel (env : Env) (samples : Nat → Sample) (w : World) (o : Outcome)
    (hcb : w.drv.report_ptr = true) (h : measure_cycle env samples w = some o) :
    report_calls o.events =
      (List.range SENSOR_COUNT).map
        (fun i => (calculate_humidity (channel_value w.drv.calibration_enabled (samples i)), i)) ∧
    report_calls o.events =
      [(calculate_humidity (channel_value w.drv.calibration_enabled (samples 0)), 0),
       (calculate_humidity (channel_value w.drv.calibration_enabled (samples 1)), 1)] ∧
    (∀ i, i < SENSOR_COUNT →
      (channel_value w.drv.calibration_enabled (samples i) < WET_VOLTAGE ∨
        DRY_VOLTAGE < channel_value w.drv.calibration_enabled (samples i)) →
      (report_calls o.events)[i]? = some (-1, i)) := by
  have hall : report_calls o.events =
      (List.range SENSOR_COUNT).map
        (fun i => (calculate_humidity (channel_value w.drv.calibration_enabled (samples i)), i)) := by
    unfold measure_cycle at h
    simp only at h
    split at h
    · exact absurd h (by simp)
    · rename_i m ev2 hloop
      rw [hcb] at hloop
      have hev2 := sample_loop_reports _ _ _ _ _ hloop
      simp only [Nat.zero_add] at hev2
      split at h
      · split at h
        · exact absurd h (by simp)
        · simp only [Option.some.injEq] at h
          subst h
          simp [report_calls_append, hev2, report_calls, set_relay_state]
      · simp only [Option.some.injEq] at h
        subst h
        simp [report_calls_append, hev2, report_calls]
  refine ⟨hall, by rw [hall]; rfl, ?_⟩
  intro i hi hout
  have hsent : calculate_humidity (channel_value w.drv.calibration_enabled (samples i)) = -1 := by
    unfold calculate_humidity
    rcases hout with hlo | hhi
    · by_cases hd : channel_value w.drv.calibration_enabled (samples i) > DRY_VOLTAGE
      · rw [if_pos hd]
      · rw [if_neg hd, if_pos hlo]
    · rw [if_pos hhi]
  rw [hall, List.getElem?_map, List.getElem?_range hi]
  simp only [Option.map_some', hsent]

/-- An iteration with the first channel at 1662 mV and the second at 30 mV, out of range:
the calls are `(calculate_humidity 1662, 0)` and `(-1, 1)`. -/
theorem reports_per_channel_witness :
    (started 60).drv.report_ptr = true ∧
    (measure_cycle env_ok (two_channels 1662 30) (started 60)).isSome = true ∧
    report_calls ((measure_cycle env_ok (two_channels 1662 30) (started 60)).getD
      (idle boot)).events =
      [(calculate_humidity (channel_value (started 60).drv.calibration_enabled
          (two_channels 1662 30 0)), 0),
       (calculate_humidity (channel_value (started 60).drv.calibration_enabled
          (two_channels 1662 30 1)), 1)] ∧
    [(calculate_humidity (channel_value (started 60).drv.calibration_enabled
          (two_channels 1662 30 0)), 0),
       (calculate_humidity (channel_value (started 60).drv.calibration_enabled
          (two_channels 1662 30 1)), 1)] = [((4592763 : ℚ) / 131072, 0), (-1, 1)] := by
  have hfacts : (started 60).drv.report_ptr = true ∧
      (measure_cycle env_ok (two_channels 1662 30) (started 60)).isSome = true ∧
      [(calculate_humidity (channel_value (started 60).drv.calibration_enabled
          (two_channels 1662 30 0)), 0),
       (calculate_humidity (channel_value (started 60).drv.calibration_enabled
          (two_channels 1662 30 1)), 1)] = [((4592763 : ℚ) / 131072, 0), (-1, 1)] := by
    decide!
  exact ⟨hfacts.1, hfacts.2.1,
    (reports_per_channel env_ok (two_channels 1662 30) (started 60) _ hfacts.1
      (eq_some_getD _ (idle boot) hfacts.2.1)).2.1, hfacts.2.2⟩

/-! ### The reported consumption -/

/-- C12, as stated, fails: after a manual override the reported consumption value is 10,
both when 0 and when 5 was reported before, so no constant `d` makes it `c + d` for every
prior value `c`. -/
theorem override_overwrites_consumption :
    reported_consumption (reporting 0) = 0 ∧ reported_consumption (reporting 5) = 5 ∧
    (zb_attribute_handler env_ok (some (on_off_write true 0)) (reporting 0)).map
        (fun r => reported_consumption r.2.1) = some 10 ∧
    (zb_attribute_handler env_ok (some (on_off_write true 0)) (reporting 5)).map
        (fun r => reported_consumption r.2.1) = some 10 ∧
    ¬ ∃ d : Int, ∀ c : Int,
      (zb_attribute_handler env_ok (some (on_off_write true 0)) (reporting c)).map
        (fun r => reported_consumption r.2.1) = some (c + d) := by
  have h0 : (zb_attribute_handler env_ok (some (on_off_write true 0)) (reporting 0)).map
      (fun r => reported_consumption r.2.1) = some 10 := by decide
  have h5 : (zb_attribute_handler env_ok (some (on_off_write true 0)) (reporting 5)).map
      (fun r => reported_consumption r.2.1) = some 10 := by decide
  refine ⟨by decide, by decide, h0, h5, ?_⟩
  rintro ⟨d, hd⟩
  have e0 := hd 0
  have e5 := hd 5
  rw [h0, Option.some.injEq] at e0
  rw [h5, Option.some.injEq] at e5
  omega

/-- C12, amended: whatever consumption value was reported before, a manual override (an
on/off attribute write handled by `zb_attribute_handler`) sets the reported consumption
value to the constant 10; the counter of the driver is not changed. -/
theorem override_reports_ten (env : Env) (w : World) (b : Bool) (x : ℚ) :
    ∃ w1 evs, zb_attribute_handler env (some (on_off_write b x)) w = some (ESP_OK, w1, evs) ∧
      reported_consumption w1 = 10 ∧
      evs.getLast? = some (Event.zb_set HA_CONSUMPTION_SENSOR_ENDPOINT
        ESP_ZB_ZCL_CLUSTER_ID_TEMP_MEASUREMENT ESP_ZB_ZCL_ATTR_TEMP_MEASUREMENT_VALUE_ID 10) ∧
      w1.drv.water_consumption_cycles = w.drv.water_consumption_cycles := by
  refine ⟨_, _, zb_attribute_handler_on_off env w b x, ?_, ?_, rfl⟩
  · simp [reported_consumption, esp_app_water_consumption_handler]
  · simp [esp_app_water_consumption_handler, set_relay_state]

end Waterer
